import Mathlib

/-!
# Logo3D: a verification development of `src/components/Logo3D.jsx`

The component builds a three.js scene once (the mount effect), listens to
scroll and resize events, advances an animation every frame (`animate`) and
tears the scene down in the cleanup function returned by the effect.

Numbers are modelled exactly: every definition is generic in a linearly
ordered field `K` (instantiated with `ℚ` for evaluation and with `ℝ`, together
with `Real.sqrt`, `Real.sin`, `Real.cos` and `Real.pi`, for the statements
that need them).  The one rounding that is modelled is the store into the
`Float32Array` of particle positions (`fround`, `particleStepStored`).
JavaScript objects allocated with `new` are modelled by names (the names of
the variables that hold them in the source).
-/

namespace Logo3D

/-! ## Numbers and vectors -/

/-- JavaScript `a || b` on numbers: `a` when it is truthy (non-zero), else `b`. -/
def jsOr {K : Type} [LinearOrderedField K] (a b : K) : K :=
  if a = 0 then b else a

/-- A triple `{x, y, z}`. -/
structure Vec3 (K : Type) where
  x : K
  y : K
  z : K
deriving DecidableEq, Repr

/-! ## Scroll adapter (`handleScroll`) -/

/-- The readings of `window` and `document.documentElement` used by `handleScroll`. -/
structure ScrollReadings (K : Type) where
  pageYOffset : K
  scrollTop : K
  scrollHeight : K
  innerHeight : K

/-- Source line `const scrollTop = window.pageYOffset || document.documentElement.scrollTop`. -/
def scrollTop {K : Type} [LinearOrderedField K] (w : ScrollReadings K) : K :=
  jsOr w.pageYOffset w.scrollTop

/-- Source line `const docHeight = document.documentElement.scrollHeight - window.innerHeight`. -/
def docHeight {K : Type} [LinearOrderedField K] (w : ScrollReadings K) : K :=
  w.scrollHeight - w.innerHeight

/-- The divisor `(docHeight || 1)` of `handleScroll`. -/
def scrollDivisor {K : Type} [LinearOrderedField K] (w : ScrollReadings K) : K :=
  jsOr (docHeight w) 1

/-- The scroll listener `handleScroll`: the value stored in `scrollProgressRef.current`,
`Math.min(scrollTop / (docHeight || 1), 1)`. -/
def handleScroll {K : Type} [LinearOrderedField K] (w : ScrollReadings K) : K :=
  min (scrollTop w / scrollDivisor w) 1

/-! ## Scene graph data model

`Object3D` is the part of a three.js node that the component reads or writes:
its class, the geometry and material it references, its position and rotation
and its children. -/

/-- The three.js classes instantiated by the component. -/
inductive ObjectType where
  | Scene | Group | Mesh | LineSegments | Points
  | AmbientLight | DirectionalLight | PointLight | PerspectiveCamera
deriving DecidableEq, Repr

/-- The `type` string of a geometry. -/
inductive GeometryType where
  | ExtrudeGeometry | EdgesGeometry | BufferGeometry | TorusGeometry
deriving DecidableEq, Repr

/-- Identity of every geometry and material object created by the mount effect,
named after the source variable holding it; `ringMaterialClone i` is the object
returned by `ringMaterial.clone()` in iteration `i` of the ring loop. -/
inductive Resource where
  | geometry | material
  | wireframeGeometry | wireframeMaterial
  | particleGeometry | particleMaterial
  | ringGeometry | ringMaterial
  | ringMaterialClone (i : Nat)
deriving DecidableEq, Repr

/-- A geometry object: its identity and its `type`. -/
structure Geometry where
  id : Resource
  type : GeometryType
deriving DecidableEq, Repr

/-- The `material` property of a node: one material or an array of materials. -/
inductive MaterialSlot where
  | single (m : Resource)
  | multi (ms : List Resource)
deriving DecidableEq, Repr

/-- A node of the scene graph. -/
inductive Object3D (K : Type) where
  | mk (type : ObjectType) (geometry : Option Geometry) (material : Option MaterialSlot)
      (position rotation : Vec3 K) (children : List (Object3D K)) : Object3D K

namespace Object3D

variable {K : Type}

def type : Object3D K → ObjectType
  | mk t _ _ _ _ _ => t

def geometry : Object3D K → Option Geometry
  | mk _ g _ _ _ _ => g

def material : Object3D K → Option MaterialSlot
  | mk _ _ m _ _ _ => m

def position : Object3D K → Vec3 K
  | mk _ _ _ p _ _ => p

def rotation : Object3D K → Vec3 K
  | mk _ _ _ _ r _ => r

def children : Object3D K → List (Object3D K)
  | mk _ _ _ _ _ c => c

def setPosition (p : Vec3 K) : Object3D K → Object3D K
  | mk t g m _ r c => mk t g m p r c

def setRotation (r : Vec3 K) : Object3D K → Object3D K
  | mk t g m p _ c => mk t g m p r c

def setChildren (c : List (Object3D K)) : Object3D K → Object3D K
  | mk t g m p r _ => mk t g m p r c

/-- Method `parent.add(child)`: the child is appended to `parent.children`. -/
def add (parent child : Object3D K) : Object3D K :=
  parent.setChildren (parent.children ++ [child])

mutual
/-- Method `object.traverse(callback)`: the callback runs on the object, then the
traversal recurses into each child in order. -/
def traverse {σ : Type} (callback : Object3D K → σ → σ) : Object3D K → σ → σ
  | mk t g m p r c, s => traverseList callback c (callback (mk t g m p r c) s)
/-- The traversal of a list of children, left to right. -/
def traverseList {σ : Type} (callback : Object3D K → σ → σ) : List (Object3D K) → σ → σ
  | [], s => s
  | o :: os, s => traverseList callback os (traverse callback o s)
end

end Object3D

/-- The object `new THREE.PerspectiveCamera(fov, aspect, near, far)` together with its node. -/
structure PerspectiveCamera (K : Type) where
  fov : K
  aspect : K
  near : K
  far : K
  node : Object3D K

/-- The particle set: `positions` is the flat `Float32Array` behind the
`position` attribute of the particle geometry (three consecutive entries per
particle), `velocities` the array `particleVelocities`.  Entries are exact
numbers; the rounding a `Float32Array` applies when a number is stored is made
explicit in `particleStepStored` and left out everywhere else. -/
structure ParticleSystem (K : Type) where
  positions : List K
  velocities : List (Vec3 K)

/-- The container element: `clientWidth` and `clientHeight`. -/
structure Container (K : Type) where
  clientWidth : K
  clientHeight : K

/-- What the mount effect leaves behind: the scene, the camera (never added to
the scene), the particle set referenced by `particlesRef.current`, and the
geometries and materials it allocated, in allocation order. -/
structure Mounted (K : Type) where
  scene : Object3D K
  camera : PerspectiveCamera K
  particles : ParticleSystem K
  allocated : List Resource

/-! ## Scene builder (the mount effect) -/

section Mount

variable {K : Type} [LinearOrderedField K]

/-- The zero vector, the default position and rotation of a new node. -/
def Vec3.zero : Vec3 K := ⟨0, 0, 0⟩

/-- The constant `particleCount`. -/
def particleCount : Nat := 100

/-- Body of the particle initialisation loop for index `i`.  The body calls
`Math.random()` six times, so iteration `i` consumes calls `6 * i` to
`6 * i + 5` of the random source `random`. -/
def initParticle (sin cos : K → K) (pi : K) (random : Nat → K) (i : Nat)
    (st : ParticleSystem K) : ParticleSystem K :=
  let theta := random (6 * i) * pi * 2
  let phi := random (6 * i + 1) * pi * 2
  let radius := 3 + random (6 * i + 2) * 2
  let positions := st.positions.set (i * 3) (radius * sin theta * cos phi)
  let positions := positions.set (i * 3 + 1) (radius * sin theta * sin phi)
  let positions := positions.set (i * 3 + 2) (radius * cos theta)
  { positions := positions,
    velocities := st.velocities ++
      [⟨(random (6 * i + 3) - 0.5) * 0.02,
        (random (6 * i + 4) - 0.5) * 0.02,
        (random (6 * i + 5) - 0.5) * 0.02⟩] }

/-- The loop `for (let i = ...; i < particleCount; i++)` with `todo` iterations left. -/
def initLoop (sin cos : K → K) (pi : K) (random : Nat → K) :
    Nat → Nat → ParticleSystem K → ParticleSystem K
  | 0, _, st => st
  | todo + 1, i, st => initLoop sin cos pi random todo (i + 1) (initParticle sin cos pi random i st)

/-- The particle set after the initialisation loop, started from a zero-filled
`Float32Array(particleCount * 3)` and an empty velocity array. -/
def initParticles (sin cos : K → K) (pi : K) (random : Nat → K) : ParticleSystem K :=
  initLoop sin cos pi random particleCount 0
    { positions := List.replicate (particleCount * 3) 0, velocities := [] }

/-- The ring created in iteration `i` of the ring loop: a mesh of the shared
`ringGeometry` and a fresh clone of `ringMaterial`, rotated by `(π / 4) * i`
about x and y. -/
def createRing (pi : K) (i : Nat) : Object3D K :=
  .mk .Mesh (some ⟨.ringGeometry, .TorusGeometry⟩) (some (.single (.ringMaterialClone i)))
    Vec3.zero ⟨(pi / 4) * (i : K), (pi / 4) * (i : K), 0⟩ []

/-- The loop `for (let i = 0; i < 3; i++)` adding one ring per iteration. -/
def addRings (pi : K) (logoGroup : Object3D K) : Object3D K :=
  (List.range 3).foldl (fun g i => g.add (createRing pi i)) logoGroup

/-- Clone objects allocated by the ring loop, one per iteration. -/
def ringClones : List Resource :=
  (List.range 3).map Resource.ringMaterialClone

/-- The mount effect.  It returns nothing when the container is missing
(`if (!containerRef.current) return`).  Nodes are values here, so the logo
group is attached to the scene once it is complete; the order of the children
of every node is the order of the `add` calls in the source.  The renderer and
the event listeners carry no state used below and are left out. -/
def mountEffect (sin cos : K → K) (pi : K) (random : Nat → K)
    (container : Option (Container K)) : Option (Mounted K) :=
  match container with
  | none => none
  | some c =>
    let scene : Object3D K := .mk .Scene none none Vec3.zero Vec3.zero []
    let camera : PerspectiveCamera K :=
      { fov := 60, aspect := c.clientWidth / c.clientHeight, near := 0.1, far := 1000,
        node := .mk .PerspectiveCamera none none ⟨0, 0, 8⟩ Vec3.zero [] }
    let logoGroup : Object3D K := .mk .Group none none Vec3.zero Vec3.zero []
    let logoMesh : Object3D K :=
      .mk .Mesh (some ⟨.geometry, .ExtrudeGeometry⟩) (some (.single .material))
        Vec3.zero Vec3.zero []
    let wireframe : Object3D K :=
      .mk .LineSegments (some ⟨.wireframeGeometry, .EdgesGeometry⟩)
        (some (.single .wireframeMaterial)) Vec3.zero Vec3.zero []
    let logoMesh := logoMesh.add wireframe
    let logoGroup := logoGroup.add logoMesh
    let particleSystem := initParticles sin cos pi random
    let particles : Object3D K :=
      .mk .Points (some ⟨.particleGeometry, .BufferGeometry⟩)
        (some (.single .particleMaterial)) Vec3.zero Vec3.zero []
    let logoGroup := logoGroup.add particles
    let logoGroup := addRings pi logoGroup
    let scene := scene.add logoGroup
    let ambientLight : Object3D K := .mk .AmbientLight none none Vec3.zero Vec3.zero []
    let scene := scene.add ambientLight
    let directionalLight : Object3D K :=
      .mk .DirectionalLight none none ⟨5, 5, 5⟩ Vec3.zero []
    let scene := scene.add directionalLight
    let pointLight : Object3D K := .mk .PointLight none none ⟨0, 0, 5⟩ Vec3.zero []
    let scene := scene.add pointLight
    some
      { scene := scene,
        camera := camera,
        particles := particleSystem,
        allocated :=
          [.geometry, .material, .wireframeGeometry, .wireframeMaterial,
            .particleGeometry, .particleMaterial, .ringGeometry, .ringMaterial] ++ ringClones }

end Mount

/-! ## Render loop (`animate`) -/

section Animate

variable {K : Type} [LinearOrderedField K]

/-- The state read and written by `animate`: the scroll progress cell
`scrollProgressRef.current`, the logo group with its children, and the
particle set. -/
structure AnimState (K : Type) where
  scrollProgress : K
  logoGroup : Object3D K
  particles : ParticleSystem K

/-- Rotation easing: both target rotations are derived from the scroll progress
and `rotation.y`, `rotation.x` move towards them by
`current += (target - current) * 0.05`. -/
def easeRotation (pi scrollProgress : K) (logoGroup : Object3D K) : Object3D K :=
  let targetRotationY := scrollProgress * pi * 6
  let targetRotationX := scrollProgress * pi * 2
  let y := logoGroup.rotation.y + (targetRotationY - logoGroup.rotation.y) * 0.05
  let x := logoGroup.rotation.x + (targetRotationX - logoGroup.rotation.x) * 0.05
  logoGroup.setRotation ⟨x, y, logoGroup.rotation.z⟩

/-- Callback of `logoGroup.children.forEach((child, index) => ...)`: a child
whose geometry has type `TorusGeometry` turns about x and y by
`0.01 * (index + 1)`; any other child is left alone. -/
def animateRing (child : Object3D K) (index : Nat) : Object3D K :=
  match child.geometry with
  | some g =>
    if g.type = GeometryType.TorusGeometry then
      child.setRotation
        ⟨child.rotation.x + 0.01 * ((index : K) + 1),
          child.rotation.y + 0.01 * ((index : K) + 1),
          child.rotation.z⟩
    else child
  | none => child

/-- Array `forEach` with the element index, starting at index `start`. -/
def forEachFrom {α : Type} (callback : α → Nat → α) : Nat → List α → List α
  | _, [] => []
  | start, a :: as => callback a start :: forEachFrom callback (start + 1) as

/-- Ring animation over all children of the logo group. -/
def animateRings (logoGroup : Object3D K) : Object3D K :=
  logoGroup.setChildren (forEachFrom animateRing 0 logoGroup.children)

/-- Body of the particle loop for index `i`: the position advances by the
velocity, and all three velocity components are multiplied by `-1` when the new
distance from the origin is above 5 or below 2.  Reading `velocities[i]` of a
missing entry throws, which is the result `none`. -/
def particleStep (sqrt : K → K) (i : Nat) (st : ParticleSystem K) :
    Option (ParticleSystem K) :=
  match st.velocities[i]? with
  | none => none
  | some v =>
    let positions := st.positions
    let positions := positions.set (i * 3) (positions.getD (i * 3) 0 + v.x)
    let positions := positions.set (i * 3 + 1) (positions.getD (i * 3 + 1) 0 + v.y)
    let positions := positions.set (i * 3 + 2) (positions.getD (i * 3 + 2) 0 + v.z)
    let distance := sqrt
      (positions.getD (i * 3) 0 ^ 2 +
        positions.getD (i * 3 + 1) 0 ^ 2 +
        positions.getD (i * 3 + 2) 0 ^ 2)
    if distance > 5 ∨ distance < 2 then
      some { positions := positions,
             velocities := st.velocities.set i ⟨v.x * -1, v.y * -1, v.z * -1⟩ }
    else
      some { positions := positions, velocities := st.velocities }

/-- The loop `for (let i = ...; i < positions.length / 3; i++)` with `todo`
iterations left. -/
def particleLoop (sqrt : K → K) : Nat → Nat → ParticleSystem K → Option (ParticleSystem K)
  | 0, _, st => some st
  | todo + 1, i, st => (particleStep sqrt i st).bind (particleLoop sqrt todo (i + 1))

/-- The particle update of one frame.  The buffer length is a multiple of three
(`new Float32Array(particleCount * 3)`), so the loop runs `length / 3` times. -/
def animateParticles (sqrt : K → K) (st : ParticleSystem K) : Option (ParticleSystem K) :=
  particleLoop sqrt (st.positions.length / 3) 0 st

/-- The particle update applied in `n` successive frames. -/
def animateParticlesN (sqrt : K → K) : Nat → ParticleSystem K → Option (ParticleSystem K)
  | 0, st => some st
  | n + 1, st => (animateParticles sqrt st).bind (animateParticlesN sqrt n)

/-- Rounding to the nearest integer, ties to the even one. -/
def roundHalfEven [FloorRing K] (y : K) : ℤ :=
  if y - (⌊y⌋ : K) < 1 / 2 then ⌊y⌋
  else if 1 / 2 < y - (⌊y⌋ : K) then ⌊y⌋ + 1
  else if ⌊y⌋ % 2 = 0 then ⌊y⌋
  else ⌊y⌋ + 1

/-- The number a `Float32Array` keeps when `x` is stored in one of its entries
(`Math.fround x`): the nearest number with a 24-bit significand, ties to even.
With `e` the binary exponent of `x` (at least `-126`, below that the spacing is
fixed), representable numbers are `2 ^ (e - 23)` apart.  Overflow to infinity
is left out: positions stay far below the largest 32-bit float. -/
def fround [FloorRing K] (x : K) : K :=
  let e := max (Int.log 2 |x|) (-126)
  let ulp := (2 : K) ^ (e - 23)
  (roundHalfEven (x / ulp) : K) * ulp

/-- Body of the particle loop for index `i` with the rounding of the buffer made
explicit: `store` is applied to every number written into `positions`, which
is a `Float32Array`.  With `store` the identity this is `particleStep`; with
`store` equal to `fround` the three writes round as the typed array does (the
sum itself is taken exactly).  Velocities are plain numbers and are not
rounded. -/
def particleStepStored (store sqrt : K → K) (i : Nat) (st : ParticleSystem K) :
    Option (ParticleSystem K) :=
  match st.velocities[i]? with
  | none => none
  | some v =>
    let positions := st.positions
    let positions := positions.set (i * 3) (store (positions.getD (i * 3) 0 + v.x))
    let positions := positions.set (i * 3 + 1) (store (positions.getD (i * 3 + 1) 0 + v.y))
    let positions := positions.set (i * 3 + 2) (store (positions.getD (i * 3 + 2) 0 + v.z))
    let distance := sqrt
      (positions.getD (i * 3) 0 ^ 2 +
        positions.getD (i * 3 + 1) 0 ^ 2 +
        positions.getD (i * 3 + 2) 0 ^ 2)
    if distance > 5 ∨ distance < 2 then
      some { positions := positions,
             velocities := st.velocities.set i ⟨v.x * -1, v.y * -1, v.z * -1⟩ }
    else
      some { positions := positions, velocities := st.velocities }

/-- The particle loop with `todo` iterations left, with rounded stores. -/
def particleLoopStored (store sqrt : K → K) :
    Nat → Nat → ParticleSystem K → Option (ParticleSystem K)
  | 0, _, st => some st
  | todo + 1, i, st =>
    (particleStepStored store sqrt i st).bind (particleLoopStored store sqrt todo (i + 1))

/-- The particle update of one frame, with rounded stores. -/
def animateParticlesStored (store sqrt : K → K) (st : ParticleSystem K) :
    Option (ParticleSystem K) :=
  particleLoopStored store sqrt (st.positions.length / 3) 0 st

/-- The particle update applied in `n` successive frames, with rounded stores. -/
def animateParticlesNStored (store sqrt : K → K) :
    Nat → ParticleSystem K → Option (ParticleSystem K)
  | 0, st => some st
  | n + 1, st =>
    (animateParticlesStored store sqrt st).bind (animateParticlesNStored store sqrt n)

/-- One call of `animate` at clock reading `time` (seconds).  In the source
`logoMesh` is the first child of the logo group and `particlesRef.current.mesh`
the second; the guard `if (particlesRef.current.mesh)` holds once the mount
effect has run.  Scheduling the next frame and the draw call change nothing
here. -/
def animate (sqrt sin : K → K) (pi time : K) (s : AnimState K) : Option (AnimState K) :=
  let logoGroup := easeRotation pi s.scrollProgress s.logoGroup
  let logoGroup := logoGroup.setPosition
    ⟨logoGroup.position.x, sin (time * 0.5) * 0.2, logoGroup.position.z⟩
  let logoGroup := logoGroup.setChildren (logoGroup.children.modify
    (fun logoMesh => logoMesh.setRotation
      ⟨logoMesh.rotation.x, logoMesh.rotation.y, sin (time * 0.3) * 0.1⟩) 0)
  let logoGroup := animateRings logoGroup
  match animateParticles sqrt s.particles with
  | none => none
  | some particles =>
    let logoGroup := logoGroup.setChildren (logoGroup.children.modify
      (fun mesh => mesh.setRotation
        ⟨mesh.rotation.x, mesh.rotation.y + 0.001, mesh.rotation.z⟩) 1)
    some { scrollProgress := s.scrollProgress, logoGroup := logoGroup, particles := particles }

/-- What happens between mount and cleanup, as far as the animation state is
concerned: a frame (a call of `animate` at a clock reading) or a scroll event
(a call of `handleScroll` with the readings it takes). -/
inductive Event (K : Type) where
  | frame (time : K)
  | scroll (readings : ScrollReadings K)

/-- The effect of one event: a frame runs `animate`, a scroll event stores the
new scroll progress. -/
def step (sqrt sin : K → K) (pi : K) : Event K → AnimState K → Option (AnimState K)
  | .frame time, s => animate sqrt sin pi time s
  | .scroll readings, s =>
    some { scrollProgress := handleScroll readings, logoGroup := s.logoGroup,
           particles := s.particles }

/-- A run of events, in order. -/
def run (sqrt sin : K → K) (pi : K) : List (Event K) → AnimState K → Option (AnimState K)
  | [], s => some s
  | e :: es, s => (step sqrt sin pi e s).bind (run sqrt sin pi es)

/-- Number of frames in a run of events. -/
def countFrames : List (Event K) → Nat
  | [] => 0
  | .frame _ :: es => countFrames es + 1
  | .scroll _ :: es => countFrames es

/-- The state `animate` starts from after a mount: scroll progress 0 (the
initial value of `scrollProgressRef`), the first child of the scene (the logo
group) and the particle set. -/
def initialState (m : Mounted K) : AnimState K :=
  { scrollProgress := 0,
    logoGroup := m.scene.children.headD (.mk .Group none none Vec3.zero Vec3.zero []),
    particles := m.particles }

end Animate

/-! ## Cleanup -/

section Cleanup

variable {K : Type}

/-- Callback of `scene.traverse` in the cleanup: `dispose()` is called on the
geometry of the object when it has one, then on its material, or on each
material when `material` is an array.  The calls are appended to `log`. -/
def disposeCallback (object : Object3D K) (log : List Resource) : List Resource :=
  let log :=
    match object.geometry with
    | some g => log ++ [g.id]
    | none => log
  match object.material with
  | some (.multi ms) => log ++ ms
  | some (.single m) => log ++ [m]
  | none => log

/-- The cleanup function returned by the mount effect, reduced to the
`dispose()` calls the scene traversal makes on geometries and materials, in
call order. -/
def cleanup (m : Mounted K) : List Resource :=
  m.scene.traverse disposeCallback []

/-- All nodes of a graph, in traversal order. -/
def Object3D.nodes (o : Object3D K) : List (Object3D K) :=
  o.traverse (fun n acc => acc ++ [n]) []

/-- Number of nodes of class `t` in a graph. -/
def Object3D.countType (t : ObjectType) (o : Object3D K) : Nat :=
  (o.nodes.filter (fun n => n.type = t)).length

/-- Number of nodes in a graph whose geometry has type `t`. -/
def Object3D.countGeometry (t : GeometryType) (o : Object3D K) : Nat :=
  (o.nodes.filter (fun n => n.geometry.map Geometry.type = some t)).length

/-- The test the ring animation applies to a child:
`child.geometry && child.geometry.type === 'TorusGeometry'`. -/
def isRing (o : Object3D K) : Bool :=
  match o.geometry with
  | some g => decide (g.type = GeometryType.TorusGeometry)
  | none => false

/-- The rings among a list of nodes, in order. -/
def rings (nodes : List (Object3D K)) : List (Object3D K) :=
  nodes.filter isRing

/-- Shape of the logo group: two children that are not rings (the logo mesh and
the particle cloud) followed by three rings. -/
def LogoGroupShape (g : Object3D K) : Prop :=
  ∃ c0 c1 r0 r1 r2, g.children = [c0, c1, r0, r1, r2] ∧
    isRing c0 = false ∧ isRing c1 = false ∧
    isRing r0 = true ∧ isRing r1 = true ∧ isRing r2 = true

end Cleanup

/-! ## Per-particle view of the particle set -/

section ParticleView

variable {K : Type} [LinearOrderedField K]

/-- One particle: its position triple and its velocity. -/
structure Particle (K : Type) where
  position : Vec3 K
  velocity : Vec3 K

/-- Particle `i` of a particle set: entries `i * 3`, `i * 3 + 1`, `i * 3 + 2`
of the position buffer and entry `i` of the velocity array. -/
def particleAt (st : ParticleSystem K) (i : Nat) : Particle K :=
  { position :=
      ⟨st.positions.getD (i * 3) 0, st.positions.getD (i * 3 + 1) 0,
        st.positions.getD (i * 3 + 2) 0⟩,
    velocity := st.velocities.getD i Vec3.zero }

/-- Particle `i` as the initialisation loop writes it: its position from the
first three random draws of iteration `i`, its velocity from the last three. -/
def initialParticle (sin cos : K → K) (pi : K) (random : Nat → K) (i : Nat) : Particle K :=
  let theta := random (6 * i) * pi * 2
  let phi := random (6 * i + 1) * pi * 2
  let radius := 3 + random (6 * i + 2) * 2
  { position :=
      ⟨radius * sin theta * cos phi, radius * sin theta * sin phi, radius * cos theta⟩,
    velocity :=
      ⟨(random (6 * i + 3) - 0.5) * 0.02, (random (6 * i + 4) - 0.5) * 0.02,
        (random (6 * i + 5) - 0.5) * 0.02⟩ }

/-- Euclidean length of a triple, `sqrt (x ^ 2 + y ^ 2 + z ^ 2)`, for a given
square root function. -/
def norm3 (sqrt : K → K) (v : Vec3 K) : K :=
  sqrt (v.x ^ 2 + v.y ^ 2 + v.z ^ 2)

/-- The effect of one iteration of the particle loop on the particle it
handles. -/
def stepParticle (sqrt : K → K) (p : Particle K) : Particle K :=
  let position : Vec3 K :=
    ⟨p.position.x + p.velocity.x, p.position.y + p.velocity.y, p.position.z + p.velocity.z⟩
  if norm3 sqrt position > 5 ∨ norm3 sqrt position < 2 then
    { position := position,
      velocity := ⟨p.velocity.x * -1, p.velocity.y * -1, p.velocity.z * -1⟩ }
  else
    { position := position, velocity := p.velocity }

/-- The effect of one iteration of the particle loop with rounded stores on the
particle it handles. -/
def stepParticleStored (store sqrt : K → K) (p : Particle K) : Particle K :=
  let position : Vec3 K :=
    ⟨store (p.position.x + p.velocity.x), store (p.position.y + p.velocity.y),
      store (p.position.z + p.velocity.z)⟩
  if norm3 sqrt position > 5 ∨ norm3 sqrt position < 2 then
    { position := position,
      velocity := ⟨p.velocity.x * -1, p.velocity.y * -1, p.velocity.z * -1⟩ }
  else
    { position := position, velocity := p.velocity }

/-- A particle set is well formed when the buffer holds three entries per
velocity, as after `new Float32Array(particleCount * 3)` and `particleCount`
pushes. -/
def WellFormed (st : ParticleSystem K) : Prop :=
  st.positions.length = 3 * st.velocities.length

/-- The position a particle moves to in the next frame, `position + velocity`. -/
def advance (p : Particle K) : Vec3 K :=
  ⟨p.position.x + p.velocity.x, p.position.y + p.velocity.y, p.position.z + p.velocity.z⟩

/-- A point lies in the shell when its distance from the origin is in `[2, 5]`,
that is when the boundary check of the particle loop does not fire on it. -/
def InShell (sqrt : K → K) (q : Vec3 K) : Prop :=
  2 ≤ norm3 sqrt q ∧ norm3 sqrt q ≤ 5

/-- Invariant of a particle across frames: it is in the shell, or it has just
left it and its (reversed) velocity takes it back in the next frame. -/
def ShellInv (sqrt : K → K) (p : Particle K) : Prop :=
  InShell sqrt p.position ∨ InShell sqrt (advance p)

end ParticleView

/-! ## Scroll adapter: properties -/

section ScrollTheorems

variable {K : Type} [LinearOrderedField K]

theorem jsOr_ne_zero (a b : K) (hb : b ≠ 0) : jsOr a b ≠ 0 := by
  unfold jsOr
  split_ifs with h
  · exact hb
  · exact h

theorem scrollDivisor_of_pos (w : ScrollReadings K) (h : 0 < docHeight w) :
    scrollDivisor w = docHeight w := by
  unfold scrollDivisor jsOr
  rw [if_neg (ne_of_gt h)]

theorem scrollDivisor_of_zero (w : ScrollReadings K) (h : docHeight w = 0) :
    scrollDivisor w = 1 := by
  unfold scrollDivisor jsOr
  rw [if_pos h]

/-- C3: with a positive scrollable height `H = scrollHeight - innerHeight` and a
scroll position `s` with `0 ≤ s ≤ H`, `handleScroll` computes `min (s / H) 1`,
no clamping occurs,
the result lies in `[0, 1]`, it is `0` at `s = 0` and `1` at `s = H`. -/
theorem handleScroll_unit_interval (w : ScrollReadings K)
    (hH : 0 < docHeight w) (h0 : 0 ≤ scrollTop w) (h1 : scrollTop w ≤ docHeight w) :
    handleScroll w = min (scrollTop w / docHeight w) 1 ∧
      handleScroll w = scrollTop w / docHeight w ∧
      (0 ≤ handleScroll w ∧ handleScroll w ≤ 1) ∧
      (scrollTop w = 0 → handleScroll w = 0) ∧
      (scrollTop w = docHeight w → handleScroll w = 1) := by
  have hdiv : scrollDivisor w = docHeight w := scrollDivisor_of_pos w hH
  have hq0 : 0 ≤ scrollTop w / docHeight w := div_nonneg h0 (le_of_lt hH)
  unfold handleScroll
  rw [hdiv]
  have hq1 : scrollTop w / docHeight w ≤ 1 := (div_le_one hH).mpr h1
  refine ⟨rfl, min_eq_left hq1, ⟨le_min hq0 zero_le_one, min_le_right _ _⟩, ?_, ?_⟩
  · intro hs
    rw [hs, zero_div]
    exact min_eq_left zero_le_one
  · intro hs
    rw [hs, div_self (ne_of_gt hH)]
    exact min_self 1

/-- Witness for C3: scroll position 50 on a page with scrollable height 100. -/
theorem handleScroll_unit_interval_witness :
    handleScroll (⟨50, 50, 900, 800⟩ : ScrollReadings ℚ) = 1 / 2 ∧
      (0 ≤ handleScroll (⟨50, 50, 900, 800⟩ : ScrollReadings ℚ) ∧
        handleScroll (⟨50, 50, 900, 800⟩ : ScrollReadings ℚ) ≤ 1) := by
  have h := handleScroll_unit_interval (⟨50, 50, 900, 800⟩ : ScrollReadings ℚ)
    (by norm_num [docHeight]) (by norm_num [scrollTop, jsOr])
    (by norm_num [scrollTop, jsOr, docHeight])
  refine ⟨?_, h.2.2.1⟩
  rw [h.2.1]
  norm_num [scrollTop, jsOr, docHeight]

/-- C4 as stated fails: with scrollable height 0 and a scroll position reading
of 5 the stored progress is 1, not 0. -/
theorem handleScroll_zero_height_counterexample :
    docHeight (⟨5, 5, 600, 600⟩ : ScrollReadings ℚ) = 0 ∧
      handleScroll (⟨5, 5, 600, 600⟩ : ScrollReadings ℚ) = 1 := by
  constructor
  · norm_num [docHeight]
  · norm_num [handleScroll, scrollTop, scrollDivisor, docHeight, jsOr]

/-- C4 (amended): when the scrollable height is 0 the divisor is 1, never 0,
the stored progress is `min scrollTop 1`, and it is 0 exactly when the scroll
position reading is 0. -/
theorem handleScroll_zero_height (w : ScrollReadings K) (hH : docHeight w = 0) :
    scrollDivisor w = 1 ∧ scrollDivisor w ≠ 0 ∧
      handleScroll w = min (scrollTop w) 1 ∧
      (handleScroll w = 0 ↔ scrollTop w = 0) := by
  have hdiv : scrollDivisor w = 1 := scrollDivisor_of_zero w hH
  have hval : handleScroll w = min (scrollTop w) 1 := by
    unfold handleScroll
    rw [hdiv, div_one]
  refine ⟨hdiv, by rw [hdiv]; exact one_ne_zero, hval, ?_⟩
  rw [hval]
  constructor
  · intro h
    rcases min_choice (scrollTop w) 1 with hc | hc
    · rw [hc] at h; exact h
    · rw [hc] at h; exact absurd h one_ne_zero
  · intro h
    rw [h]
    exact min_eq_left zero_le_one

/-- Witness for C4 (amended): a page exactly as tall as the viewport, not scrolled. -/
theorem handleScroll_zero_height_witness :
    docHeight (⟨0, 0, 600, 600⟩ : ScrollReadings ℚ) = 0 ∧
      scrollDivisor (⟨0, 0, 600, 600⟩ : ScrollReadings ℚ) = 1 ∧
      handleScroll (⟨0, 0, 600, 600⟩ : ScrollReadings ℚ) = 0 := by
  have hH : docHeight (⟨0, 0, 600, 600⟩ : ScrollReadings ℚ) = 0 := by norm_num [docHeight]
  have h := handleScroll_zero_height (⟨0, 0, 600, 600⟩ : ScrollReadings ℚ) hH
  exact ⟨hH, h.1, h.2.2.2.mpr (by norm_num [scrollTop, jsOr])⟩

/-- The divisor of `handleScroll` is never 0, whatever the readings. -/
theorem scrollDivisor_ne_zero (w : ScrollReadings K) : scrollDivisor w ≠ 0 :=
  jsOr_ne_zero _ _ one_ne_zero

/-- C9 as stated fails: a negative scroll position reading (overscroll) gives a
negative stored progress. -/
theorem handleScroll_negative_counterexample :
    handleScroll (⟨-10, -10, 900, 800⟩ : ScrollReadings ℚ) = -1 / 10 ∧
      ¬ (0 ≤ handleScroll (⟨-10, -10, 900, 800⟩ : ScrollReadings ℚ)) := by
  have h : handleScroll (⟨-10, -10, 900, 800⟩ : ScrollReadings ℚ) = -1 / 10 := by
    norm_num [handleScroll, scrollTop, scrollDivisor, docHeight, jsOr]
  refine ⟨h, ?_⟩
  rw [h]
  norm_num

/-- C9 (amended): the stored progress is at most 1 for all readings (it is
clamped from above only), and it is at least 0 whenever the scroll position
reading and the height difference are both non-negative. -/
theorem handleScroll_le_one_and_nonneg (w : ScrollReadings K) :
    handleScroll w ≤ 1 ∧ (0 ≤ scrollTop w → 0 ≤ docHeight w → 0 ≤ handleScroll w) := by
  refine ⟨min_le_right _ _, ?_⟩
  intro hs hH
  have hdiv : 0 ≤ scrollDivisor w := by
    unfold scrollDivisor jsOr
    split_ifs
    · exact zero_le_one
    · exact hH
  exact le_min (div_nonneg hs hdiv) zero_le_one

/-- Witness for C9 (amended): scroll position 50, scrollable height 100. -/
theorem handleScroll_le_one_and_nonneg_witness :
    handleScroll (⟨50, 0, 900, 800⟩ : ScrollReadings ℚ) ≤ 1 ∧
      0 ≤ handleScroll (⟨50, 0, 900, 800⟩ : ScrollReadings ℚ) :=
  ⟨(handleScroll_le_one_and_nonneg (⟨50, 0, 900, 800⟩ : ScrollReadings ℚ)).1,
    (handleScroll_le_one_and_nonneg (⟨50, 0, 900, 800⟩ : ScrollReadings ℚ)).2
      (by norm_num [scrollTop, jsOr]) (by norm_num [docHeight])⟩

end ScrollTheorems

section ParticleLemmas

variable {K : Type} [LinearOrderedField K]

theorem getD_set_self {α : Type} (l : List α) (i : Nat) (a d : α) (h : i < l.length) :
    (l.set i a).getD i d = a := by
  rw [List.getD_eq_getElem?_getD, List.getElem?_set]
  simp [h]

theorem getD_set_other {α : Type} (l : List α) (i j : Nat) (a d : α) (h : i ≠ j) :
    (l.set i a).getD j d = l.getD j d := by
  rw [List.getD_eq_getElem?_getD, List.getElem?_set, List.getD_eq_getElem?_getD]
  simp [h]

/-- Reading back a buffer after the three writes of one loop iteration. -/
theorem getD_set_triple {α : Type} (l : List α) (i : Nat) (a b c d : α)
    (h : i * 3 + 2 < l.length) :
    ((((l.set (i * 3) a).set (i * 3 + 1) b).set (i * 3 + 2) c).getD (i * 3) d = a ∧
      (((l.set (i * 3) a).set (i * 3 + 1) b).set (i * 3 + 2) c).getD (i * 3 + 1) d = b ∧
      (((l.set (i * 3) a).set (i * 3 + 1) b).set (i * 3 + 2) c).getD (i * 3 + 2) d = c) ∧
    ∀ m, m ≠ i * 3 → m ≠ i * 3 + 1 → m ≠ i * 3 + 2 →
      (((l.set (i * 3) a).set (i * 3 + 1) b).set (i * 3 + 2) c).getD m d = l.getD m d := by
  refine ⟨⟨?_, ?_, ?_⟩, ?_⟩
  · rw [getD_set_other _ _ _ _ _ (by omega), getD_set_other _ _ _ _ _ (by omega),
      getD_set_self _ _ _ _ (by omega)]
  · rw [getD_set_other _ _ _ _ _ (by omega),
      getD_set_self _ _ _ _ (by rw [List.length_set]; omega)]
  · rw [getD_set_self _ _ _ _ (by rw [List.length_set, List.length_set]; omega)]
  · intro m h0 h1 h2
    rw [getD_set_other _ _ _ _ _ (Ne.symm h2), getD_set_other _ _ _ _ _ (Ne.symm h1),
      getD_set_other _ _ _ _ _ (Ne.symm h0)]

/-- One iteration of the particle loop succeeds on a well-formed set, keeps both
lengths, applies `stepParticle` to particle `i` and leaves every other particle
untouched. -/
theorem particleStep_spec (sqrt : K → K) (st : ParticleSystem K) (i : Nat)
    (hwf : WellFormed st) (hi : i < st.velocities.length) :
    ∃ st', particleStep sqrt i st = some st' ∧
      st'.positions.length = st.positions.length ∧
      st'.velocities.length = st.velocities.length ∧
      particleAt st' i = stepParticle sqrt (particleAt st i) ∧
      ∀ j, j ≠ i → particleAt st' j = particleAt st j := by
  unfold WellFormed at hwf
  have h2 : i * 3 + 2 < st.positions.length := by omega
  have hv : st.velocities[i]? = some (st.velocities.getD i Vec3.zero) := by
    rw [List.getD_eq_getElem?_getD, List.getElem?_eq_getElem hi]
    rfl
  have hmid : (st.positions.set (i * 3) (st.positions.getD (i * 3) 0 +
      (st.velocities.getD i Vec3.zero).x)).getD (i * 3 + 1) 0 =
      st.positions.getD (i * 3 + 1) 0 := getD_set_other _ _ _ _ _ (by omega)
  have hmid2 : ((st.positions.set (i * 3) (st.positions.getD (i * 3) 0 +
      (st.velocities.getD i Vec3.zero).x)).set (i * 3 + 1)
        (st.positions.getD (i * 3 + 1) 0 + (st.velocities.getD i Vec3.zero).y)).getD
          (i * 3 + 2) 0 = st.positions.getD (i * 3 + 2) 0 := by
    rw [getD_set_other _ _ _ _ _ (by omega), getD_set_other _ _ _ _ _ (by omega)]
  obtain ⟨⟨g0, g1, g2⟩, gother⟩ := getD_set_triple st.positions i
    (st.positions.getD (i * 3) 0 + (st.velocities.getD i Vec3.zero).x)
    (st.positions.getD (i * 3 + 1) 0 + (st.velocities.getD i Vec3.zero).y)
    (st.positions.getD (i * 3 + 2) 0 + (st.velocities.getD i Vec3.zero).z) 0 h2
  have hothers : ∀ j, j ≠ i → ∀ k, k < 3 →
      (((st.positions.set (i * 3) (st.positions.getD (i * 3) 0 +
        (st.velocities.getD i Vec3.zero).x)).set (i * 3 + 1)
        (st.positions.getD (i * 3 + 1) 0 + (st.velocities.getD i Vec3.zero).y)).set (i * 3 + 2)
        (st.positions.getD (i * 3 + 2) 0 + (st.velocities.getD i Vec3.zero).z)).getD
          (j * 3 + k) 0 = st.positions.getD (j * 3 + k) 0 := by
    intro j hj k hk
    exact gother _ (by omega) (by omega) (by omega)
  simp only [particleStep, hv, hmid, hmid2, g0, g1, g2]
  split_ifs with hflip
  · refine ⟨_, rfl, ?_, ?_, ?_, ?_⟩
    · simp only [List.length_set]
    · simp only [List.length_set]
    · simp only [particleAt, stepParticle, norm3, g0, g1, g2, getD_set_self _ _ _ _ hi]
      rw [if_pos hflip]
    · intro j hj
      have e0 := hothers j hj 0 (by omega)
      have e1 := hothers j hj 1 (by omega)
      have e2 := hothers j hj 2 (by omega)
      simp only [Nat.add_zero] at e0
      simp only [particleAt, e0, e1, e2, getD_set_other _ _ _ _ _ (Ne.symm hj)]
  · refine ⟨_, rfl, ?_, rfl, ?_, ?_⟩
    · simp only [List.length_set]
    · simp only [particleAt, stepParticle, norm3, g0, g1, g2]
      rw [if_neg hflip]
    · intro j hj
      have e0 := hothers j hj 0 (by omega)
      have e1 := hothers j hj 1 (by omega)
      have e2 := hothers j hj 2 (by omega)
      simp only [Nat.add_zero] at e0
      simp only [particleAt, e0, e1, e2]

end ParticleLemmas

section ParticleLoopLemmas

variable {K : Type} [LinearOrderedField K]

/-- The particle loop started at index `i` with `todo` iterations left, on a
well-formed set with `i + todo` particles: it succeeds, keeps both lengths,
steps every particle from `i` on and leaves the earlier ones untouched. -/
theorem particleLoop_spec (sqrt : K → K) (todo : Nat) :
    ∀ (i : Nat) (st : ParticleSystem K), WellFormed st → i + todo = st.velocities.length →
      ∃ st', particleLoop sqrt todo i st = some st' ∧
        st'.positions.length = st.positions.length ∧
        st'.velocities.length = st.velocities.length ∧
        (∀ j, i ≤ j → j < st.velocities.length →
          particleAt st' j = stepParticle sqrt (particleAt st j)) ∧
        (∀ j, j < i → particleAt st' j = particleAt st j) := by
  induction todo with
  | zero =>
    intro i st _ hlen
    refine ⟨st, rfl, rfl, rfl, ?_, fun j _ => rfl⟩
    intro j hij hj
    omega
  | succ todo ih =>
    intro i st hwf hlen
    obtain ⟨st1, hstep, hp1, hv1, hat1, hother1⟩ :=
      particleStep_spec sqrt st i hwf (by omega)
    have hwf1 : WellFormed st1 := by
      unfold WellFormed at hwf ⊢
      rw [hp1, hv1]
      exact hwf
    obtain ⟨st', hloop, hp', hv', hge', hlt'⟩ := ih (i + 1) st1 hwf1 (by omega)
    refine ⟨st', ?_, by rw [hp', hp1], by rw [hv', hv1], ?_, ?_⟩
    · simp only [particleLoop, hstep, Option.bind_some]
      exact hloop
    · intro j hij hj
      rcases Nat.eq_or_lt_of_le hij with heq | hlt
      · subst heq
        rw [hlt' i (Nat.lt_succ_self i), hat1]
      · rw [hge' j hlt (by omega), hother1 j (by omega)]
    · intro j hj
      rw [hlt' j (by omega), hother1 j (by omega)]

/-- One frame of the particle update on a well-formed set: it succeeds, keeps
both lengths (so the set stays well formed) and steps every particle once. -/
theorem animateParticles_spec (sqrt : K → K) (st : ParticleSystem K) (hwf : WellFormed st) :
    ∃ st', animateParticles sqrt st = some st' ∧
      st'.positions.length = st.positions.length ∧
      st'.velocities.length = st.velocities.length ∧
      ∀ j, j < st.velocities.length →
        particleAt st' j = stepParticle sqrt (particleAt st j) := by
  have hcount : st.positions.length / 3 = st.velocities.length := by
    unfold WellFormed at hwf
    omega
  obtain ⟨st', hloop, hp, hv, hge, _⟩ :=
    particleLoop_spec sqrt (st.positions.length / 3) 0 st hwf (by omega)
  refine ⟨st', hloop, hp, hv, ?_⟩
  intro j hj
  exact hge j (Nat.zero_le j) hj

/-- Any number of frames of the particle update on a well-formed set: the run
succeeds, keeps both lengths and iterates `stepParticle` on every particle. -/
theorem animateParticlesN_spec (sqrt : K → K) (n : Nat) :
    ∀ (st : ParticleSystem K), WellFormed st →
      ∃ st', animateParticlesN sqrt n st = some st' ∧
        st'.positions.length = st.positions.length ∧
        st'.velocities.length = st.velocities.length ∧
        ∀ j, j < st.velocities.length →
          particleAt st' j = (stepParticle sqrt)^[n] (particleAt st j) := by
  induction n with
  | zero =>
    intro st _
    exact ⟨st, rfl, rfl, rfl, fun j _ => rfl⟩
  | succ n ih =>
    intro st hwf
    obtain ⟨st1, h1, hp1, hv1, hat1⟩ := animateParticles_spec sqrt st hwf
    have hwf1 : WellFormed st1 := by
      unfold WellFormed at hwf ⊢
      rw [hp1, hv1]
      exact hwf
    obtain ⟨st', hn, hp', hv', hat'⟩ := ih st1 hwf1
    refine ⟨st', ?_, by rw [hp', hp1], by rw [hv', hv1], ?_⟩
    · simp only [animateParticlesN, h1, Option.bind_some]
      exact hn
    · intro j hj
      rw [hat' j (by omega), hat1 j hj, Function.iterate_succ_apply]

end ParticleLoopLemmas

section ParticleDynamics

variable {K : Type} [LinearOrderedField K]

theorem stepParticle_eq (sqrt : K → K) (p : Particle K) :
    stepParticle sqrt p =
      if norm3 sqrt (advance p) > 5 ∨ norm3 sqrt (advance p) < 2 then
        { position := advance p,
          velocity := ⟨p.velocity.x * -1, p.velocity.y * -1, p.velocity.z * -1⟩ }
      else { position := advance p, velocity := p.velocity } :=
  rfl

theorem stepParticle_position (sqrt : K → K) (p : Particle K) :
    (stepParticle sqrt p).position = advance p := by
  rw [stepParticle_eq]
  split_ifs <;> rfl

theorem stepParticle_velocity_of_flip (sqrt : K → K) (p : Particle K)
    (h : norm3 sqrt (advance p) > 5 ∨ norm3 sqrt (advance p) < 2) :
    (stepParticle sqrt p).velocity = ⟨-p.velocity.x, -p.velocity.y, -p.velocity.z⟩ := by
  rw [stepParticle_eq, if_pos h]
  simp only [mul_neg, mul_one]

theorem stepParticle_velocity_of_not_flip (sqrt : K → K) (p : Particle K)
    (h : ¬ (norm3 sqrt (advance p) > 5 ∨ norm3 sqrt (advance p) < 2)) :
    (stepParticle sqrt p).velocity = p.velocity := by
  rw [stepParticle_eq, if_neg h]

theorem not_flip_iff_inShell (sqrt : K → K) (q : Vec3 K) :
    ¬ (norm3 sqrt q > 5 ∨ norm3 sqrt q < 2) ↔ InShell sqrt q := by
  unfold InShell
  constructor
  · intro h
    exact ⟨not_lt.mp (fun h2 => h (Or.inr h2)), not_lt.mp (fun h5 => h (Or.inl h5))⟩
  · rintro ⟨h2, h5⟩ (h | h)
    · exact absurd h (not_lt.mpr h5)
    · exact absurd h (not_lt.mpr h2)

/-- The frame after a boundary flip takes the particle back where it was. -/
theorem advance_stepParticle_of_flip (sqrt : K → K) (p : Particle K)
    (h : norm3 sqrt (advance p) > 5 ∨ norm3 sqrt (advance p) < 2) :
    advance (stepParticle sqrt p) = p.position := by
  have hv := stepParticle_velocity_of_flip sqrt p h
  have hp := stepParticle_position sqrt p
  simp only [advance, hv, hp]
  simp only [advance, add_neg_cancel_right]

/-- The shell invariant is preserved by every frame. -/
theorem stepParticle_shellInv (sqrt : K → K) (p : Particle K) (h : ShellInv sqrt p) :
    ShellInv sqrt (stepParticle sqrt p) := by
  by_cases hflip : norm3 sqrt (advance p) > 5 ∨ norm3 sqrt (advance p) < 2
  · right
    rw [advance_stepParticle_of_flip sqrt p hflip]
    rcases h with hin | hin
    · exact hin
    · exact absurd hin (fun hc => ((not_flip_iff_inShell sqrt _).mpr hc) hflip)
  · left
    rw [stepParticle_position]
    exact (not_flip_iff_inShell sqrt _).mp hflip

theorem iterate_stepParticle_shellInv (sqrt : K → K) (p : Particle K) (h : ShellInv sqrt p)
    (n : Nat) : ShellInv sqrt ((stepParticle sqrt)^[n] p) := by
  induction n with
  | zero => exact h
  | succ n ih =>
    rw [Function.iterate_succ_apply']
    exact stepParticle_shellInv sqrt _ ih

/-- After any number of frames the velocity is the initial one or its
component-wise negation, and the position is the initial position plus an
integer multiple of the initial velocity. -/
theorem iterate_stepParticle_line (sqrt : K → K) (p : Particle K) (n : Nat) :
    (((stepParticle sqrt)^[n] p).velocity = p.velocity ∨
      ((stepParticle sqrt)^[n] p).velocity =
        ⟨-p.velocity.x, -p.velocity.y, -p.velocity.z⟩) ∧
    ∃ k : ℤ, ((stepParticle sqrt)^[n] p).position =
      ⟨p.position.x + (k : K) * p.velocity.x, p.position.y + (k : K) * p.velocity.y,
        p.position.z + (k : K) * p.velocity.z⟩ := by
  induction n with
  | zero =>
    refine ⟨Or.inl rfl, 0, ?_⟩
    simp
  | succ n ih =>
    rw [Function.iterate_succ_apply']
    obtain ⟨hv, k, hk⟩ := ih
    generalize (stepParticle sqrt)^[n] p = q at hv hk
    constructor
    · by_cases hflip : norm3 sqrt (advance q) > 5 ∨ norm3 sqrt (advance q) < 2
      · rw [stepParticle_velocity_of_flip sqrt q hflip]
        rcases hv with hv | hv
        · right; rw [hv]
        · left; rw [hv]; simp
      · rw [stepParticle_velocity_of_not_flip sqrt q hflip]
        exact hv
    · rw [stepParticle_position]
      rcases hv with hv | hv
      · refine ⟨k + 1, ?_⟩
        simp only [advance, hk, hv, Vec3.mk.injEq]
        push_cast
        refine ⟨by ring, by ring, by ring⟩
      · refine ⟨k - 1, ?_⟩
        simp only [advance, hk, hv, Vec3.mk.injEq]
        push_cast
        refine ⟨by ring, by ring, by ring⟩

/-- After `n` frames of the exact update the particle sits at the initial
position plus `k` times the initial velocity, where `k` is an integer of the
parity of `n` with `|k| ≤ n`: every frame moves it by one velocity, forwards or
backwards, along one line. -/
theorem iterate_stepParticle_steps (sqrt : K → K) (p : Particle K) (n : Nat) :
    ∃ k : ℤ, |k| ≤ (n : ℤ) ∧ (k - (n : ℤ)) % 2 = 0 ∧
      ((((stepParticle sqrt)^[n] p).velocity = p.velocity ∧
          ((stepParticle sqrt)^[n] p).position =
            ⟨p.position.x + (k : K) * p.velocity.x, p.position.y + (k : K) * p.velocity.y,
              p.position.z + (k : K) * p.velocity.z⟩) ∨
        (((stepParticle sqrt)^[n] p).velocity =
            ⟨-p.velocity.x, -p.velocity.y, -p.velocity.z⟩ ∧
          ((stepParticle sqrt)^[n] p).position =
            ⟨p.position.x + (k : K) * p.velocity.x, p.position.y + (k : K) * p.velocity.y,
              p.position.z + (k : K) * p.velocity.z⟩)) := by
  induction n with
  | zero =>
    refine ⟨0, by simp, by simp, Or.inl ⟨rfl, ?_⟩⟩
    simp
  | succ n ih =>
    rw [Function.iterate_succ_apply']
    obtain ⟨k, hk, hpar, hq⟩ := ih
    generalize (stepParticle sqrt)^[n] p = q at hq
    have hvel : (stepParticle sqrt q).velocity = q.velocity ∨
        (stepParticle sqrt q).velocity = ⟨-q.velocity.x, -q.velocity.y, -q.velocity.z⟩ := by
      by_cases hflip : norm3 sqrt (advance q) > 5 ∨ norm3 sqrt (advance q) < 2
      · exact Or.inr (stepParticle_velocity_of_flip sqrt q hflip)
      · exact Or.inl (stepParticle_velocity_of_not_flip sqrt q hflip)
    rw [abs_le] at hk
    rcases hq with ⟨hv, hp⟩ | ⟨hv, hp⟩
    · refine ⟨k + 1, ?_, ?_, ?_⟩
      · rw [abs_le]
        push_cast
        constructor <;> omega
      · push_cast
        omega
      · have hpos : (stepParticle sqrt q).position =
            ⟨p.position.x + ((k + 1 : ℤ) : K) * p.velocity.x,
              p.position.y + ((k + 1 : ℤ) : K) * p.velocity.y,
              p.position.z + ((k + 1 : ℤ) : K) * p.velocity.z⟩ := by
          rw [stepParticle_position]
          simp only [advance, hp, hv, Vec3.mk.injEq]
          push_cast
          refine ⟨by ring, by ring, by ring⟩
        rcases hvel with h | h
        · exact Or.inl ⟨by rw [h, hv], hpos⟩
        · exact Or.inr ⟨by rw [h, hv], hpos⟩
    · refine ⟨k - 1, ?_, ?_, ?_⟩
      · rw [abs_le]
        push_cast
        constructor <;> omega
      · push_cast
        omega
      · have hpos : (stepParticle sqrt q).position =
            ⟨p.position.x + ((k - 1 : ℤ) : K) * p.velocity.x,
              p.position.y + ((k - 1 : ℤ) : K) * p.velocity.y,
              p.position.z + ((k - 1 : ℤ) : K) * p.velocity.z⟩ := by
          rw [stepParticle_position]
          simp only [advance, hp, hv, Vec3.mk.injEq]
          push_cast
          refine ⟨by ring, by ring, by ring⟩
        rcases hvel with h | h
        · exact Or.inr ⟨by rw [h, hv], hpos⟩
        · exact Or.inl ⟨by rw [h, hv]; simp, hpos⟩

theorem norm3_neg (sqrt : K → K) (v : Vec3 K) :
    norm3 sqrt ⟨-v.x, -v.y, -v.z⟩ = norm3 sqrt v := by
  simp only [norm3, neg_sq]

end ParticleDynamics

section StoreLemmas

variable {K : Type} [LinearOrderedField K]

/-- With the identity as `store` the rounded step is the exact step. -/
theorem particleStepStored_id (sqrt : K → K) (i : Nat) (st : ParticleSystem K) :
    particleStepStored (fun x => x) sqrt i st = particleStep sqrt i st :=
  rfl

theorem stepParticleStored_id (sqrt : K → K) (p : Particle K) :
    stepParticleStored (fun x => x) sqrt p = stepParticle sqrt p :=
  rfl

/-- A number within half a unit of the integer `n` rounds to `n`. -/
theorem roundHalfEven_eq [FloorRing K] (y : K) (n : ℤ) (h : |y - (n : K)| < 1 / 2) :
    roundHalfEven y = n := by
  rw [abs_lt] at h
  obtain ⟨hlo, hhi⟩ := h
  unfold roundHalfEven
  by_cases hge : (n : K) ≤ y
  · have hfloor : ⌊y⌋ = n := by
      rw [Int.floor_eq_iff]
      constructor
      · exact hge
      · linarith
    rw [hfloor, if_pos (by linarith)]
  · have hfloor : ⌊y⌋ = n - 1 := by
      rw [Int.floor_eq_iff]
      push_cast
      constructor
      · linarith
      · linarith [not_le.mp hge]
    rw [hfloor]
    push_cast
    rw [if_neg (by linarith), if_pos (by linarith)]
    ring

/-- Evaluation of `fround`: a number `x` with `2 ^ e ≤ |x| < 2 ^ (e + 1)` that
lies within half a spacing `2 ^ (e - 23)` of `n * 2 ^ (e - 23)` is stored as
`n * 2 ^ (e - 23)`. -/
theorem fround_eq [FloorRing K] (x : K) (e n : ℤ) (he : -126 ≤ e)
    (hlo : (2 : K) ^ e ≤ |x|) (hhi : |x| < (2 : K) ^ (e + 1))
    (hn : |x / (2 : K) ^ (e - 23) - (n : K)| < 1 / 2) :
    fround x = (n : K) * (2 : K) ^ (e - 23) := by
  have hpos : 0 < |x| := lt_of_lt_of_le (by positivity) hlo
  have hlog : Int.log 2 |x| = e := by
    have h1 : e ≤ Int.log 2 |x| := by
      rw [← Int.zpow_le_iff_le_log (by norm_num) hpos]
      exact_mod_cast hlo
    have h2 : Int.log 2 |x| < e + 1 := by
      rw [← Int.lt_zpow_iff_log_lt (by norm_num) hpos]
      exact_mod_cast hhi
    omega
  unfold fround
  simp only [hlog, max_eq_left he]
  rw [roundHalfEven_eq _ n hn]

theorem fround_zero [FloorRing K] : fround (0 : K) = 0 := by
  unfold fround roundHalfEven
  simp

/-- One iteration of the particle loop with rounded stores succeeds on a
well-formed set, keeps both lengths, applies `stepParticleStored` to particle
`i` and leaves every other particle untouched. -/
theorem particleStepStored_spec (store sqrt : K → K) (st : ParticleSystem K) (i : Nat)
    (hwf : WellFormed st) (hi : i < st.velocities.length) :
    ∃ st', particleStepStored store sqrt i st = some st' ∧
      st'.positions.length = st.positions.length ∧
      st'.velocities.length = st.velocities.length ∧
      particleAt st' i = stepParticleStored store sqrt (particleAt st i) ∧
      ∀ j, j ≠ i → particleAt st' j = particleAt st j := by
  unfold WellFormed at hwf
  have h2 : i * 3 + 2 < st.positions.length := by omega
  have hv : st.velocities[i]? = some (st.velocities.getD i Vec3.zero) := by
    rw [List.getD_eq_getElem?_getD, List.getElem?_eq_getElem hi]
    rfl
  have hmid : (st.positions.set (i * 3) (store (st.positions.getD (i * 3) 0 +
      (st.velocities.getD i Vec3.zero).x))).getD (i * 3 + 1) 0 =
      st.positions.getD (i * 3 + 1) 0 := getD_set_other _ _ _ _ _ (by omega)
  have hmid2 : ((st.positions.set (i * 3) (store (st.positions.getD (i * 3) 0 +
      (st.velocities.getD i Vec3.zero).x))).set (i * 3 + 1)
        (store (st.positions.getD (i * 3 + 1) 0 +
          (st.velocities.getD i Vec3.zero).y))).getD
          (i * 3 + 2) 0 = st.positions.getD (i * 3 + 2) 0 := by
    rw [getD_set_other _ _ _ _ _ (by omega), getD_set_other _ _ _ _ _ (by omega)]
  obtain ⟨⟨g0, g1, g2⟩, gother⟩ := getD_set_triple st.positions i
    (store (st.positions.getD (i * 3) 0 + (st.velocities.getD i Vec3.zero).x))
    (store (st.positions.getD (i * 3 + 1) 0 + (st.velocities.getD i Vec3.zero).y))
    (store (st.positions.getD (i * 3 + 2) 0 + (st.velocities.getD i Vec3.zero).z)) 0 h2
  have hothers : ∀ j, j ≠ i → ∀ k, k < 3 →
      (((st.positions.set (i * 3) (store (st.positions.getD (i * 3) 0 +
        (st.velocities.getD i Vec3.zero).x))).set (i * 3 + 1)
        (store (st.positions.getD (i * 3 + 1) 0 +
          (st.velocities.getD i Vec3.zero).y))).set (i * 3 + 2)
        (store (st.positions.getD (i * 3 + 2) 0 +
          (st.velocities.getD i Vec3.zero).z))).getD
          (j * 3 + k) 0 = st.positions.getD (j * 3 + k) 0 := by
    intro j hj k hk
    exact gother _ (by omega) (by omega) (by omega)
  simp only [particleStepStored, hv, hmid, hmid2, g0, g1, g2]
  split_ifs with hflip
  · refine ⟨_, rfl, ?_, ?_, ?_, ?_⟩
    · simp only [List.length_set]
    · simp only [List.length_set]
    · simp only [particleAt, stepParticleStored, norm3, g0, g1, g2,
        getD_set_self _ _ _ _ hi]
      rw [if_pos hflip]
    · intro j hj
      have e0 := hothers j hj 0 (by omega)
      have e1 := hothers j hj 1 (by omega)
      have e2 := hothers j hj 2 (by omega)
      simp only [Nat.add_zero] at e0
      simp only [particleAt, e0, e1, e2, getD_set_other _ _ _ _ _ (Ne.symm hj)]
  · refine ⟨_, rfl, ?_, rfl, ?_, ?_⟩
    · simp only [List.length_set]
    · simp only [particleAt, stepParticleStored, norm3, g0, g1, g2]
      rw [if_neg hflip]
    · intro j hj
      have e0 := hothers j hj 0 (by omega)
      have e1 := hothers j hj 1 (by omega)
      have e2 := hothers j hj 2 (by omega)
      simp only [Nat.add_zero] at e0
      simp only [particleAt, e0, e1, e2]

theorem particleLoopStored_spec (store sqrt : K → K) (todo : Nat) :
    ∀ (i : Nat) (st : ParticleSystem K), WellFormed st → i + todo = st.velocities.length →
      ∃ st', particleLoopStored store sqrt todo i st = some st' ∧
        st'.positions.length = st.positions.length ∧
        st'.velocities.length = st.velocities.length ∧
        (∀ j, i ≤ j → j < st.velocities.length →
          particleAt st' j = stepParticleStored store sqrt (particleAt st j)) ∧
        (∀ j, j < i → particleAt st' j = particleAt st j) := by
  induction todo with
  | zero =>
    intro i st _ hlen
    refine ⟨st, rfl, rfl, rfl, ?_, fun j _ => rfl⟩
    intro j hij hj
    omega
  | succ todo ih =>
    intro i st hwf hlen
    obtain ⟨st1, hstep, hp1, hv1, hat1, hother1⟩ :=
      particleStepStored_spec store sqrt st i hwf (by omega)
    have hwf1 : WellFormed st1 := by
      unfold WellFormed at hwf ⊢
      rw [hp1, hv1]
      exact hwf
    obtain ⟨st', hloop, hp', hv', hge', hlt'⟩ := ih (i + 1) st1 hwf1 (by omega)
    refine ⟨st', ?_, by rw [hp', hp1], by rw [hv', hv1], ?_, ?_⟩
    · simp only [particleLoopStored, hstep, Option.some_bind]
      exact hloop
    · intro j hij hj
      rcases Nat.eq_or_lt_of_le hij with heq | hlt
      · subst heq
        rw [hlt' i (Nat.lt_succ_self i), hat1]
      · rw [hge' j hlt (by omega), hother1 j (by omega)]
    · intro j hj
      rw [hlt' j (by omega), hother1 j (by omega)]

/-- One frame of the particle update with rounded stores on a well-formed set:
it succeeds, keeps both lengths and steps every particle once. -/
theorem animateParticlesStored_spec (store sqrt : K → K) (st : ParticleSystem K)
    (hwf : WellFormed st) :
    ∃ st', animateParticlesStored store sqrt st = some st' ∧
      st'.positions.length = st.positions.length ∧
      st'.velocities.length = st.velocities.length ∧
      ∀ j, j < st.velocities.length →
        particleAt st' j = stepParticleStored store sqrt (particleAt st j) := by
  have hcount : st.positions.length / 3 = st.velocities.length := by
    unfold WellFormed at hwf
    omega
  obtain ⟨st', hloop, hp, hv, hge, _⟩ :=
    particleLoopStored_spec store sqrt (st.positions.length / 3) 0 st hwf (by omega)
  refine ⟨st', hloop, hp, hv, ?_⟩
  intro j hj
  exact hge j (Nat.zero_le j) hj

/-- Any number of frames of the particle update with rounded stores. -/
theorem animateParticlesNStored_spec (store sqrt : K → K) (n : Nat) :
    ∀ (st : ParticleSystem K), WellFormed st →
      ∃ st', animateParticlesNStored store sqrt n st = some st' ∧
        st'.positions.length = st.positions.length ∧
        st'.velocities.length = st.velocities.length ∧
        ∀ j, j < st.velocities.length →
          particleAt st' j = (stepParticleStored store sqrt)^[n] (particleAt st j) := by
  induction n with
  | zero =>
    intro st _
    exact ⟨st, rfl, rfl, rfl, fun j _ => rfl⟩
  | succ n ih =>
    intro st hwf
    obtain ⟨st1, h1, hp1, hv1, hat1⟩ := animateParticlesStored_spec store sqrt st hwf
    have hwf1 : WellFormed st1 := by
      unfold WellFormed at hwf ⊢
      rw [hp1, hv1]
      exact hwf
    obtain ⟨st', hn, hp', hv', hat'⟩ := ih st1 hwf1
    refine ⟨st', ?_, by rw [hp', hp1], by rw [hv', hv1], ?_⟩
    · simp only [animateParticlesNStored, h1, Option.some_bind]
      exact hn
    · intro j hj
      rw [hat' j (by omega), hat1 j hj, Function.iterate_succ_apply]

theorem stepParticleStored_eq (store sqrt : K → K) (p : Particle K) :
    stepParticleStored store sqrt p =
      if norm3 sqrt ⟨store (p.position.x + p.velocity.x), store (p.position.y + p.velocity.y),
            store (p.position.z + p.velocity.z)⟩ > 5 ∨
          norm3 sqrt ⟨store (p.position.x + p.velocity.x), store (p.position.y + p.velocity.y),
            store (p.position.z + p.velocity.z)⟩ < 2 then
        { position := ⟨store (p.position.x + p.velocity.x),
            store (p.position.y + p.velocity.y), store (p.position.z + p.velocity.z)⟩,
          velocity := ⟨p.velocity.x * -1, p.velocity.y * -1, p.velocity.z * -1⟩ }
      else
        { position := ⟨store (p.position.x + p.velocity.x),
            store (p.position.y + p.velocity.y), store (p.position.z + p.velocity.z)⟩,
          velocity := p.velocity } :=
  rfl

theorem stepParticleStored_position (store sqrt : K → K) (p : Particle K) :
    (stepParticleStored store sqrt p).position =
      ⟨store (p.position.x + p.velocity.x), store (p.position.y + p.velocity.y),
        store (p.position.z + p.velocity.z)⟩ := by
  rw [stepParticleStored_eq]
  split_ifs <;> rfl

/-- With rounded stores too, the velocity after any number of frames is the
initial one or its component-wise negation. -/
theorem iterate_stepParticleStored_velocity (store sqrt : K → K) (p : Particle K) (n : Nat) :
    ((stepParticleStored store sqrt)^[n] p).velocity = p.velocity ∨
      ((stepParticleStored store sqrt)^[n] p).velocity =
        ⟨-p.velocity.x, -p.velocity.y, -p.velocity.z⟩ := by
  induction n with
  | zero => exact Or.inl rfl
  | succ n ih =>
    rw [Function.iterate_succ_apply', stepParticleStored_eq]
    generalize (stepParticleStored store sqrt)^[n] p = q at ih
    split_ifs
    · rcases ih with h | h
      · right
        simp only [h, mul_neg, mul_one]
      · left
        simp only [h, mul_neg, mul_one, neg_neg]
    · exact ih

end StoreLemmas

section ParticleClaims

variable {K : Type} [LinearOrderedField K]

theorem norm3_nonneg (v : Vec3 ℝ) : 0 ≤ norm3 Real.sqrt v :=
  Real.sqrt_nonneg _

/-- Triangle inequality for the Euclidean length of triples. -/
theorem norm3_add_le (p v : Vec3 ℝ) :
    norm3 Real.sqrt ⟨p.x + v.x, p.y + v.y, p.z + v.z⟩ ≤
      norm3 Real.sqrt p + norm3 Real.sqrt v := by
  obtain ⟨a, b, c⟩ := p
  obtain ⟨x, y, z⟩ := v
  simp only [norm3]
  have hS : 0 ≤ a ^ 2 + b ^ 2 + c ^ 2 := by positivity
  have hT : 0 ≤ x ^ 2 + y ^ 2 + z ^ 2 := by positivity
  have hs := Real.sqrt_nonneg (a ^ 2 + b ^ 2 + c ^ 2)
  have ht := Real.sqrt_nonneg (x ^ 2 + y ^ 2 + z ^ 2)
  have hs2 := Real.sq_sqrt hS
  have ht2 := Real.sq_sqrt hT
  have hcs : a * x + b * y + c * z ≤
      Real.sqrt (a ^ 2 + b ^ 2 + c ^ 2) * Real.sqrt (x ^ 2 + y ^ 2 + z ^ 2) := by
    rw [← Real.sqrt_mul hS]
    apply Real.le_sqrt_of_sq_le
    nlinarith [sq_nonneg (a * y - b * x), sq_nonneg (a * z - c * x),
      sq_nonneg (b * z - c * y)]
  apply Real.sqrt_le_iff.mpr
  constructor
  · positivity
  · nlinarith

/-- A particle satisfying the shell invariant is within one step of the shell. -/
theorem shellInv_bounds (p : Particle ℝ) (h : ShellInv Real.sqrt p) :
    norm3 Real.sqrt p.position ≤ 5 + norm3 Real.sqrt p.velocity ∧
      2 - norm3 Real.sqrt p.velocity ≤ norm3 Real.sqrt p.position := by
  have hv := norm3_nonneg p.velocity
  rcases h with ⟨h2, h5⟩ | ⟨h2, h5⟩
  · constructor <;> linarith
  · have hback : p.position =
        ⟨(advance p).x + (-p.velocity.x), (advance p).y + (-p.velocity.y),
          (advance p).z + (-p.velocity.z)⟩ := by
      obtain ⟨⟨a, b, c⟩, ⟨x, y, z⟩⟩ := p
      simp [advance]
    have hup := norm3_add_le (advance p) ⟨-p.velocity.x, -p.velocity.y, -p.velocity.z⟩
    rw [← hback, norm3_neg] at hup
    have hlow := norm3_add_le p.position p.velocity
    have hadv : (⟨p.position.x + p.velocity.x, p.position.y + p.velocity.y,
        p.position.z + p.velocity.z⟩ : Vec3 ℝ) = advance p := rfl
    rw [hadv] at hlow
    constructor <;> linarith

/-- C1: a particle of a well-formed particle set that starts at a distance in
`[3, 5]` from the origin is, after any number `N` of frames of the particle
update (which all succeed), at a distance of at most `5 + |v|` and at least
`2 - |v|`, where `|v|` is the length of its initial velocity; the length of its
velocity is the same in every frame.  Arithmetic is exact (real numbers). -/
theorem animateParticles_shell_overshoot (st : ParticleSystem ℝ) (hwf : WellFormed st)
    (i : Nat) (hi : i < st.velocities.length)
    (h3 : 3 ≤ norm3 Real.sqrt (particleAt st i).position)
    (h5 : norm3 Real.sqrt (particleAt st i).position ≤ 5) (N : Nat) :
    ∃ st', animateParticlesN Real.sqrt N st = some st' ∧
      norm3 Real.sqrt (particleAt st' i).velocity =
        norm3 Real.sqrt (particleAt st i).velocity ∧
      norm3 Real.sqrt (particleAt st' i).position ≤
        5 + norm3 Real.sqrt (particleAt st i).velocity ∧
      2 - norm3 Real.sqrt (particleAt st i).velocity ≤
        norm3 Real.sqrt (particleAt st' i).position := by
  obtain ⟨st', hrun, _, _, hat⟩ := animateParticlesN_spec Real.sqrt N st hwf
  have hinv0 : ShellInv Real.sqrt (particleAt st i) := Or.inl ⟨by linarith, h5⟩
  have hinv := iterate_stepParticle_shellInv Real.sqrt _ hinv0 N
  have hline := (iterate_stepParticle_line Real.sqrt (particleAt st i) N).1
  rw [← hat i hi] at hinv hline
  have hspeed : norm3 Real.sqrt (particleAt st' i).velocity =
      norm3 Real.sqrt (particleAt st i).velocity := by
    rcases hline with h | h
    · rw [h]
    · rw [h, norm3_neg]
  have hb := shellInv_bounds _ hinv
  rw [hspeed] at hb
  exact ⟨st', hrun, hspeed, hb.1, hb.2⟩

/-- A one-particle set used to instantiate the particle theorems: the particle
sits at `(3, 0, 0)` and moves by `(1/100, 0, 0)` per frame. -/
theorem exampleParticles_facts :
    WellFormed (⟨[3, 0, 0], [⟨1 / 100, 0, 0⟩]⟩ : ParticleSystem ℝ) ∧
      norm3 Real.sqrt (particleAt (⟨[3, 0, 0], [⟨1 / 100, 0, 0⟩]⟩ : ParticleSystem ℝ) 0).position
        = 3 := by
  constructor
  · simp [WellFormed]
  · simp only [particleAt, norm3]
    norm_num
    rw [show (9 : ℝ) = 3 ^ 2 by norm_num]
    exact Real.sqrt_sq (by norm_num)

/-- Witness for C1: the one-particle set above, two frames. -/
theorem animateParticles_shell_overshoot_witness :
    ∃ st', animateParticlesN Real.sqrt 2
        (⟨[3, 0, 0], [⟨1 / 100, 0, 0⟩]⟩ : ParticleSystem ℝ) = some st' ∧
      norm3 Real.sqrt (particleAt st' 0).velocity =
        norm3 Real.sqrt
          (particleAt (⟨[3, 0, 0], [⟨1 / 100, 0, 0⟩]⟩ : ParticleSystem ℝ) 0).velocity ∧
      norm3 Real.sqrt (particleAt st' 0).position ≤
        5 + norm3 Real.sqrt
          (particleAt (⟨[3, 0, 0], [⟨1 / 100, 0, 0⟩]⟩ : ParticleSystem ℝ) 0).velocity ∧
      2 - norm3 Real.sqrt
          (particleAt (⟨[3, 0, 0], [⟨1 / 100, 0, 0⟩]⟩ : ParticleSystem ℝ) 0).velocity ≤
        norm3 Real.sqrt (particleAt st' 0).position :=
  animateParticles_shell_overshoot (⟨[3, 0, 0], [⟨1 / 100, 0, 0⟩]⟩ : ParticleSystem ℝ)
    exampleParticles_facts.1 0 (by simp)
    (by rw [exampleParticles_facts.2])
    (by rw [exampleParticles_facts.2]; norm_num) 2

/-- C10 as stated fails on the buffer the code uses.  The positions live in a
`Float32Array`, whose stores round.  Start inside the shell at
`(16777215/16777216, 0, 10272899/2097152)`, that is
`(0.9999999403953552, 0, 4.898499965667725)`, with velocity `(1/200, 0, 1/200)`.
The first frame stores `(8430551/8388608, 0, 10283385/2097152)`, at distance
above 5, so the velocity is negated (a boundary flip).  The next frame stores
`(1, 0, 10272899/2097152)`: x comes back as `1`, not as `16777215/16777216`, so
the particle does not return exactly to the position it held before leaving
the shell. -/
theorem animateParticles_return_counterexample :
    InShell Real.sqrt (⟨16777215 / 16777216, 0, 10272899 / 2097152⟩ : Vec3 ℝ) ∧
    (animateParticlesStored fround Real.sqrt
        (⟨[16777215 / 16777216, 0, 10272899 / 2097152], [⟨1 / 200, 0, 1 / 200⟩]⟩ :
          ParticleSystem ℝ)).map (fun s => particleAt s 0) =
      some ⟨⟨8430551 / 8388608, 0, 10283385 / 2097152⟩, ⟨-(1 / 200), 0, -(1 / 200)⟩⟩ ∧
    ((animateParticlesStored fround Real.sqrt
        (⟨[16777215 / 16777216, 0, 10272899 / 2097152], [⟨1 / 200, 0, 1 / 200⟩]⟩ :
          ParticleSystem ℝ)).bind (animateParticlesStored fround Real.sqrt)).map
        (fun s => (particleAt s 0).position) =
      some ⟨1, 0, 10272899 / 2097152⟩ ∧
    (1 : ℝ) ≠ 16777215 / 16777216 := by
  have hwf0 : WellFormed (⟨[16777215 / 16777216, 0, 10272899 / 2097152],
      [⟨1 / 200, 0, 1 / 200⟩]⟩ : ParticleSystem ℝ) := by
    simp [WellFormed]
  obtain ⟨s1, hs1, hp1, hv1, hat1⟩ := animateParticlesStored_spec fround Real.sqrt _ hwf0
  have hwf1 : WellFormed s1 := by
    unfold WellFormed at hwf0 ⊢
    rw [hp1, hv1]
    exact hwf0
  obtain ⟨s2, hs2, _, _, hat2⟩ := animateParticlesStored_spec fround Real.sqrt s1 hwf1
  have hx1 : fround (16777215 / 16777216 + 1 / 200 : ℝ) = 8430551 / 8388608 := by
    rw [fround_eq _ 0 8430551 (by norm_num)
      (by rw [abs_of_pos (by norm_num)]; norm_num)
      (by rw [abs_of_pos (by norm_num)]; norm_num)
      (by rw [abs_lt]; constructor <;> norm_num)]
    norm_num
  have hz1 : fround (10272899 / 2097152 + 1 / 200 : ℝ) = 10283385 / 2097152 := by
    rw [fround_eq _ 2 10283385 (by norm_num)
      (by rw [abs_of_pos (by norm_num)]; norm_num)
      (by rw [abs_of_pos (by norm_num)]; norm_num)
      (by rw [abs_lt]; constructor <;> norm_num)]
    norm_num
  have hx2 : fround (8430551 / 8388608 + -(1 / 200) : ℝ) = 1 := by
    rw [fround_eq _ (-1) 16777216 (by norm_num)
      (by rw [abs_of_pos (by norm_num)]; norm_num)
      (by rw [abs_of_pos (by norm_num)]; norm_num)
      (by rw [abs_lt]; constructor <;> norm_num)]
    norm_num
  have hz2 : fround (10283385 / 2097152 + -(1 / 200) : ℝ) = 10272899 / 2097152 := by
    rw [fround_eq _ 2 10272899 (by norm_num)
      (by rw [abs_of_pos (by norm_num)]; norm_num)
      (by rw [abs_of_pos (by norm_num)]; norm_num)
      (by rw [abs_lt]; constructor <;> norm_num)]
    norm_num
  have hy : fround (0 + 0 : ℝ) = 0 := by
    rw [add_zero]
    exact fround_zero
  have hstart : particleAt (⟨[16777215 / 16777216, 0, 10272899 / 2097152],
      [⟨1 / 200, 0, 1 / 200⟩]⟩ : ParticleSystem ℝ) 0 =
      ⟨⟨16777215 / 16777216, 0, 10272899 / 2097152⟩, ⟨1 / 200, 0, 1 / 200⟩⟩ := rfl
  have hframe1 : particleAt s1 0 =
      ⟨⟨8430551 / 8388608, 0, 10283385 / 2097152⟩, ⟨-(1 / 200), 0, -(1 / 200)⟩⟩ := by
    rw [hat1 0 (by simp), hstart, stepParticleStored_eq]
    simp only [hx1, hy, hz1]
    rw [if_pos (Or.inl (by
      unfold norm3
      rw [gt_iff_lt, Real.lt_sqrt (by norm_num)]
      norm_num))]
    norm_num
  have hframe2 : (particleAt s2 0).position = ⟨1, 0, 10272899 / 2097152⟩ := by
    rw [hat2 0 (by rw [hv1]; simp), hframe1, stepParticleStored_position]
    simp only [hx2, hy, hz2]
  refine ⟨?_, ?_, ?_, by norm_num⟩
  · unfold InShell norm3
    constructor
    · rw [Real.le_sqrt (by norm_num) (by norm_num)]
      norm_num
    · rw [Real.sqrt_le_iff]
      constructor <;> norm_num
  · rw [hs1, Option.map_some', hframe1]
  · rw [hs1, Option.some_bind, hs2, Option.map_some', hframe2]

/-- C10 (amended): on a well-formed particle set every run of frames succeeds
and keeps the number of buffer entries and of velocities.

Whatever rounding `store` the buffer applies to the numbers written into it:
after any number `N` of frames the velocity of particle `i` is its initial
velocity or the exact component-wise negation of it, so its speed is unchanged;
frame `N + 1` stores `store (position + velocity)` as its new position; if the
boundary check fires on that new position the velocity is negated in that
frame, otherwise it is kept.

With arithmetic taken as exact (no rounding of the stores): after `N` frames
the particle is at the initial position plus `k` times the initial velocity,
with `k` an integer of the parity of `N` and `|k| ≤ N`, so it moves back and
forth along one line; every frame moves it by exactly its velocity; and when
the boundary check fires in frame `N + 1`, frame `N + 2` puts the particle back
exactly where it was before frame `N + 1`, a position inside the shell `[2, 5]`
when the particle started inside the shell. -/
theorem animateParticles_velocity_sign_only (store sqrt : K → K) (st : ParticleSystem K)
    (hwf : WellFormed st) (i : Nat) (hi : i < st.velocities.length) (N : Nat) :
    (∃ a b, animateParticlesNStored store sqrt N st = some a ∧
      animateParticlesStored store sqrt a = some b ∧
      (a.positions.length = st.positions.length ∧
        a.velocities.length = st.velocities.length) ∧
      ((particleAt a i).velocity = (particleAt st i).velocity ∨
        (particleAt a i).velocity =
          ⟨-(particleAt st i).velocity.x, -(particleAt st i).velocity.y,
            -(particleAt st i).velocity.z⟩) ∧
      norm3 sqrt (particleAt a i).velocity = norm3 sqrt (particleAt st i).velocity ∧
      (particleAt b i).position =
        ⟨store ((particleAt a i).position.x + (particleAt a i).velocity.x),
          store ((particleAt a i).position.y + (particleAt a i).velocity.y),
          store ((particleAt a i).position.z + (particleAt a i).velocity.z)⟩ ∧
      ((norm3 sqrt (particleAt b i).position > 5 ∨ norm3 sqrt (particleAt b i).position < 2) →
        (particleAt b i).velocity =
          ⟨-(particleAt a i).velocity.x, -(particleAt a i).velocity.y,
            -(particleAt a i).velocity.z⟩) ∧
      (¬ (norm3 sqrt (particleAt b i).position > 5 ∨
          norm3 sqrt (particleAt b i).position < 2) →
        (particleAt b i).velocity = (particleAt a i).velocity)) ∧
    (∃ a b c, animateParticlesN sqrt N st = some a ∧
      animateParticles sqrt a = some b ∧ animateParticles sqrt b = some c ∧
      (a.positions.length = st.positions.length ∧
        a.velocities.length = st.velocities.length) ∧
      (∃ k : ℤ, |k| ≤ (N : ℤ) ∧ (k - (N : ℤ)) % 2 = 0 ∧
        (particleAt a i).position =
          ⟨(particleAt st i).position.x + (k : K) * (particleAt st i).velocity.x,
            (particleAt st i).position.y + (k : K) * (particleAt st i).velocity.y,
            (particleAt st i).position.z + (k : K) * (particleAt st i).velocity.z⟩) ∧
      (particleAt b i).position =
        ⟨(particleAt a i).position.x + (particleAt a i).velocity.x,
          (particleAt a i).position.y + (particleAt a i).velocity.y,
          (particleAt a i).position.z + (particleAt a i).velocity.z⟩ ∧
      (particleAt c i).position =
        ⟨(particleAt b i).position.x + (particleAt b i).velocity.x,
          (particleAt b i).position.y + (particleAt b i).velocity.y,
          (particleAt b i).position.z + (particleAt b i).velocity.z⟩ ∧
      ((norm3 sqrt (particleAt b i).position > 5 ∨ norm3 sqrt (particleAt b i).position < 2) →
        (particleAt b i).velocity =
          ⟨-(particleAt a i).velocity.x, -(particleAt a i).velocity.y,
            -(particleAt a i).velocity.z⟩ ∧
        (particleAt c i).position = (particleAt a i).position ∧
        (InShell sqrt (particleAt st i).position →
          InShell sqrt (particleAt a i).position))) := by
  constructor
  · obtain ⟨a, ha, hpa, hva, hata⟩ := animateParticlesNStored_spec store sqrt N st hwf
    have hwfa : WellFormed a := by
      unfold WellFormed at hwf ⊢
      rw [hpa, hva]
      exact hwf
    obtain ⟨b, hb, _, _, hatb⟩ := animateParticlesStored_spec store sqrt a hwfa
    have hia : i < a.velocities.length := by rw [hva]; exact hi
    have hvel := iterate_stepParticleStored_velocity store sqrt (particleAt st i) N
    rw [← hata i hi] at hvel
    refine ⟨a, b, ha, hb, ⟨hpa, hva⟩, hvel, ?_, ?_, ?_, ?_⟩
    · rcases hvel with h | h
      · rw [h]
      · rw [h, norm3_neg]
    · rw [hatb i hia, stepParticleStored_position]
    · intro hflip
      rw [hatb i hia, stepParticleStored_position] at hflip
      rw [hatb i hia, stepParticleStored_eq, if_pos hflip]
      simp only [mul_neg, mul_one]
    · intro hflip
      rw [hatb i hia, stepParticleStored_position] at hflip
      rw [hatb i hia, stepParticleStored_eq, if_neg hflip]
  · obtain ⟨a, ha, hpa, hva, hata⟩ := animateParticlesN_spec sqrt N st hwf
    have hwfa : WellFormed a := by
      unfold WellFormed at hwf ⊢
      rw [hpa, hva]
      exact hwf
    obtain ⟨b, hb, hpb, hvb, hatb⟩ := animateParticles_spec sqrt a hwfa
    have hwfb : WellFormed b := by
      unfold WellFormed at hwfa ⊢
      rw [hpb, hvb]
      exact hwfa
    obtain ⟨c, hc, _, _, hatc⟩ := animateParticles_spec sqrt b hwfb
    have hia : i < a.velocities.length := by rw [hva]; exact hi
    have hib : i < b.velocities.length := by rw [hvb]; exact hia
    obtain ⟨k, hk, hpar, hline⟩ := iterate_stepParticle_steps sqrt (particleAt st i) N
    rw [← hata i hi] at hline
    have hpos : (particleAt a i).position =
        ⟨(particleAt st i).position.x + (k : K) * (particleAt st i).velocity.x,
          (particleAt st i).position.y + (k : K) * (particleAt st i).velocity.y,
          (particleAt st i).position.z + (k : K) * (particleAt st i).velocity.z⟩ := by
      rcases hline with h | h
      · exact h.2
      · exact h.2
    refine ⟨a, b, c, ha, hb, hc, ⟨hpa, hva⟩, ⟨k, hk, hpar, hpos⟩, ?_, ?_, ?_⟩
    · rw [hatb i hia, stepParticle_position]
      rfl
    · rw [hatc i hib, stepParticle_position]
      rfl
    · intro hflip
      rw [hatb i hia, stepParticle_position] at hflip
      refine ⟨?_, ?_, ?_⟩
      · rw [hatb i hia]
        exact stepParticle_velocity_of_flip sqrt _ hflip
      · rw [hatc i hib, stepParticle_position, hatb i hia]
        exact advance_stepParticle_of_flip sqrt _ hflip
      · intro hstart
        have hinv := iterate_stepParticle_shellInv sqrt (particleAt st i) (Or.inl hstart) N
        rw [← hata i hi] at hinv
        rcases hinv with hin | hin
        · exact hin
        · exact absurd hflip ((not_flip_iff_inShell sqrt _).mpr hin)

/-- Witness for C10 (amended): the one-particle set above with the 32-bit
rounding as `store` and the real square root, after three frames. -/
theorem animateParticles_velocity_sign_only_witness :
    (∃ a b, animateParticlesNStored fround Real.sqrt 3
        (⟨[3, 0, 0], [⟨1 / 100, 0, 0⟩]⟩ : ParticleSystem ℝ) = some a ∧
      animateParticlesStored fround Real.sqrt a = some b ∧
      (a.positions.length = 3 ∧ a.velocities.length = 1) ∧
      ((particleAt a 0).velocity = ⟨1 / 100, 0, 0⟩ ∨
        (particleAt a 0).velocity = ⟨-(1 / 100), -0, -0⟩) ∧
      (particleAt b 0).position =
        ⟨fround ((particleAt a 0).position.x + (particleAt a 0).velocity.x),
          fround ((particleAt a 0).position.y + (particleAt a 0).velocity.y),
          fround ((particleAt a 0).position.z + (particleAt a 0).velocity.z)⟩) ∧
    (∃ a b, animateParticlesN Real.sqrt 3
        (⟨[3, 0, 0], [⟨1 / 100, 0, 0⟩]⟩ : ParticleSystem ℝ) = some a ∧
      animateParticles Real.sqrt a = some b ∧
      (particleAt b 0).position =
        ⟨(particleAt a 0).position.x + (particleAt a 0).velocity.x,
          (particleAt a 0).position.y + (particleAt a 0).velocity.y,
          (particleAt a 0).position.z + (particleAt a 0).velocity.z⟩) := by
  obtain ⟨⟨a, b, ha, hb, hlen, hvel, _, hpos, _⟩, ⟨a', b', _, ha', hb', _, _, _, hpos', _⟩⟩ :=
    animateParticles_velocity_sign_only fround Real.sqrt
      (⟨[3, 0, 0], [⟨1 / 100, 0, 0⟩]⟩ : ParticleSystem ℝ) exampleParticles_facts.1 0
      (by simp) 3
  exact ⟨⟨a, b, ha, hb, hlen, hvel, hpos⟩, ⟨a', b', ha', hb', hpos'⟩⟩

end ParticleClaims

section InitLemmas

variable {K : Type} [LinearOrderedField K]

/-- One iteration of the initialisation loop at index `i`, on a buffer with
room for particle `i` and a velocity array of length `i`: the buffer keeps its
length, one velocity is pushed, particle `i` is as `initialParticle` describes
and the earlier particles are untouched. -/
theorem initParticle_spec (sin cos : K → K) (pi : K) (random : Nat → K) (i : Nat)
    (st : ParticleSystem K) (hp : i * 3 + 2 < st.positions.length)
    (hv : st.velocities.length = i) :
    (initParticle sin cos pi random i st).positions.length = st.positions.length ∧
      (initParticle sin cos pi random i st).velocities.length = i + 1 ∧
      particleAt (initParticle sin cos pi random i st) i =
        initialParticle sin cos pi random i ∧
      ∀ j, j < i → particleAt (initParticle sin cos pi random i st) j = particleAt st j := by
  obtain ⟨⟨g0, g1, g2⟩, gother⟩ := getD_set_triple st.positions i
    ((3 + random (6 * i + 2) * 2) * sin (random (6 * i) * pi * 2) *
      cos (random (6 * i + 1) * pi * 2))
    ((3 + random (6 * i + 2) * 2) * sin (random (6 * i) * pi * 2) *
      sin (random (6 * i + 1) * pi * 2))
    ((3 + random (6 * i + 2) * 2) * cos (random (6 * i) * pi * 2)) 0 hp
  refine ⟨?_, ?_, ?_, ?_⟩
  · simp only [initParticle, List.length_set]
  · simp only [initParticle, List.length_append, List.length_singleton, hv]
  · have hpush : ∀ v : Vec3 K, (st.velocities ++ [v]).getD i Vec3.zero = v := by
      intro v
      rw [List.getD_eq_getElem?_getD, ← hv, List.getElem?_concat_length]
      rfl
    simp only [particleAt, initParticle, initialParticle, g0, g1, g2, hpush]
  · intro j hj
    have e0 := gother (j * 3) (by omega) (by omega) (by omega)
    have e1 := gother (j * 3 + 1) (by omega) (by omega) (by omega)
    have e2 := gother (j * 3 + 2) (by omega) (by omega) (by omega)
    have hkeep : ∀ v : Vec3 K,
        (st.velocities ++ [v]).getD j Vec3.zero = st.velocities.getD j Vec3.zero := by
      intro v
      exact List.getD_append _ _ _ _ (by omega)
    simp only [particleAt, initParticle, e0, e1, e2, hkeep]

/-- The initialisation loop started at index `i` with `todo` iterations left. -/
theorem initLoop_spec (sin cos : K → K) (pi : K) (random : Nat → K) (todo : Nat) :
    ∀ (i : Nat) (st : ParticleSystem K), st.positions.length = 3 * (i + todo) →
      st.velocities.length = i →
      (initLoop sin cos pi random todo i st).positions.length = st.positions.length ∧
        (initLoop sin cos pi random todo i st).velocities.length = i + todo ∧
        (∀ j, i ≤ j → j < i + todo →
          particleAt (initLoop sin cos pi random todo i st) j =
            initialParticle sin cos pi random j) ∧
        (∀ j, j < i → particleAt (initLoop sin cos pi random todo i st) j = particleAt st j) := by
  induction todo with
  | zero =>
    intro i st _ hv
    refine ⟨rfl, hv, ?_, fun j _ => rfl⟩
    intro j h1 h2
    omega
  | succ todo ih =>
    intro i st hp hv
    obtain ⟨hp1, hv1, hat1, hlt1⟩ :=
      initParticle_spec sin cos pi random i st (by omega) hv
    obtain ⟨hp', hv', hge', hlt'⟩ :=
      ih (i + 1) (initParticle sin cos pi random i st) (by rw [hp1, hp]; ring) hv1
    simp only [initLoop]
    refine ⟨by rw [hp', hp1], by rw [hv']; ring, ?_, ?_⟩
    · intro j hij hj
      rcases Nat.eq_or_lt_of_le hij with heq | hlt
      · subst heq
        rw [hlt' i (Nat.lt_succ_self i), hat1]
      · exact hge' j hlt (by omega)
    · intro j hj
      rw [hlt' j (by omega), hlt1 j hj]

/-- The particle set built by the mount effect: `3 * particleCount` buffer
entries, `particleCount` velocities, and particle `i` as `initialParticle`
describes. -/
theorem initParticles_spec (sin cos : K → K) (pi : K) (random : Nat → K) :
    (initParticles sin cos pi random).positions.length = 3 * particleCount ∧
      (initParticles sin cos pi random).velocities.length = particleCount ∧
      ∀ i, i < particleCount →
        particleAt (initParticles sin cos pi random) i = initialParticle sin cos pi random i := by
  obtain ⟨hp, hv, hge, _⟩ := initLoop_spec sin cos pi random particleCount 0
    { positions := List.replicate (particleCount * 3) 0, velocities := [] }
    (by simp only [List.length_replicate]; omega) rfl
  refine ⟨?_, ?_, ?_⟩
  · unfold initParticles
    rw [hp]
    simp only [List.length_replicate]
    omega
  · unfold initParticles
    rw [hv]
    omega
  · intro i hi
    exact hge i (Nat.zero_le i) (by omega)

/-- The position written for a particle lies at distance `radius` from the
origin. -/
theorem initialParticle_distance (random : Nat → ℝ) (i : Nat)
    (h0 : 0 ≤ random (6 * i + 2)) :
    norm3 Real.sqrt (initialParticle Real.sin Real.cos Real.pi random i).position =
      3 + random (6 * i + 2) * 2 := by
  have hr : 0 ≤ 3 + random (6 * i + 2) * 2 := by linarith
  simp only [initialParticle, norm3]
  have hsq : ((3 + random (6 * i + 2) * 2) * Real.sin (random (6 * i) * Real.pi * 2) *
        Real.cos (random (6 * i + 1) * Real.pi * 2)) ^ 2 +
      ((3 + random (6 * i + 2) * 2) * Real.sin (random (6 * i) * Real.pi * 2) *
        Real.sin (random (6 * i + 1) * Real.pi * 2)) ^ 2 +
      ((3 + random (6 * i + 2) * 2) * Real.cos (random (6 * i) * Real.pi * 2)) ^ 2 =
      (3 + random (6 * i + 2) * 2) ^ 2 := by
    have h1 := Real.sin_sq_add_cos_sq (random (6 * i) * Real.pi * 2)
    have h2 := Real.sin_sq_add_cos_sq (random (6 * i + 1) * Real.pi * 2)
    calc _ = (3 + random (6 * i + 2) * 2) ^ 2 *
          (Real.sin (random (6 * i) * Real.pi * 2) ^ 2 *
            (Real.sin (random (6 * i + 1) * Real.pi * 2) ^ 2 +
              Real.cos (random (6 * i + 1) * Real.pi * 2) ^ 2) +
            Real.cos (random (6 * i) * Real.pi * 2) ^ 2) := by ring
      _ = (3 + random (6 * i + 2) * 2) ^ 2 := by rw [h2, mul_one, h1, mul_one]
  rw [hsq]
  exact Real.sqrt_sq hr

/-- C8: for each of the `particleCount` (100) particles built by the mount
effect, when the three random draws used for its position lie in `[0, 1)`, the
particle starts at the position
`(r sin θ cos φ, r sin θ sin φ, r cos θ)` with `r = 3 + 2 u`, whose distance
from the origin is exactly `r`, hence in `[3, 5]`. -/
theorem initParticles_distance (random : Nat → ℝ) (i : Nat) (hi : i < particleCount)
    (hrand : ∀ k, k < 3 → 0 ≤ random (6 * i + k) ∧ random (6 * i + k) < 1) :
    (particleAt (initParticles Real.sin Real.cos Real.pi random) i).position =
        ⟨(3 + random (6 * i + 2) * 2) * Real.sin (random (6 * i) * Real.pi * 2) *
            Real.cos (random (6 * i + 1) * Real.pi * 2),
          (3 + random (6 * i + 2) * 2) * Real.sin (random (6 * i) * Real.pi * 2) *
            Real.sin (random (6 * i + 1) * Real.pi * 2),
          (3 + random (6 * i + 2) * 2) * Real.cos (random (6 * i) * Real.pi * 2)⟩ ∧
      norm3 Real.sqrt (particleAt (initParticles Real.sin Real.cos Real.pi random) i).position =
        3 + random (6 * i + 2) * 2 ∧
      3 ≤ norm3 Real.sqrt
        (particleAt (initParticles Real.sin Real.cos Real.pi random) i).position ∧
      norm3 Real.sqrt
        (particleAt (initParticles Real.sin Real.cos Real.pi random) i).position ≤ 5 := by
  have hat := (initParticles_spec Real.sin Real.cos Real.pi random).2.2 i hi
  have hu := hrand 2 (by omega)
  have hd := initialParticle_distance random i hu.1
  rw [hat, hd]
  refine ⟨rfl, rfl, ?_, ?_⟩
  · linarith [hu.1]
  · linarith [hu.2]

/-- Witness for C8: every draw is `1/2`, first particle. -/
theorem initParticles_distance_witness :
    norm3 Real.sqrt
        (particleAt (initParticles Real.sin Real.cos Real.pi (fun _ => 1 / 2)) 0).position =
      3 + 1 / 2 * 2 :=
  (initParticles_distance (fun _ => 1 / 2) 0 (by unfold particleCount; omega)
    (fun _ _ => by norm_num)).2.1

end InitLemmas

section ObjectLemmas

variable {K : Type}

@[simp] theorem Object3D.rotation_setRotation (r : Vec3 K) (o : Object3D K) :
    (o.setRotation r).rotation = r := by
  cases o; rfl

@[simp] theorem Object3D.geometry_setRotation (r : Vec3 K) (o : Object3D K) :
    (o.setRotation r).geometry = o.geometry := by
  cases o; rfl

@[simp] theorem Object3D.children_setRotation (r : Vec3 K) (o : Object3D K) :
    (o.setRotation r).children = o.children := by
  cases o; rfl

@[simp] theorem Object3D.rotation_setPosition (p : Vec3 K) (o : Object3D K) :
    (o.setPosition p).rotation = o.rotation := by
  cases o; rfl

@[simp] theorem Object3D.children_setPosition (p : Vec3 K) (o : Object3D K) :
    (o.setPosition p).children = o.children := by
  cases o; rfl

@[simp] theorem Object3D.rotation_setChildren (c : List (Object3D K)) (o : Object3D K) :
    (o.setChildren c).rotation = o.rotation := by
  cases o; rfl

@[simp] theorem Object3D.children_setChildren (c : List (Object3D K)) (o : Object3D K) :
    (o.setChildren c).children = c := by
  cases o; rfl

@[simp] theorem isRing_setRotation (r : Vec3 K) (o : Object3D K) :
    isRing (o.setRotation r) = isRing o := by
  cases o; rfl

theorem rings_of_shape (c0 c1 r0 r1 r2 : Object3D K)
    (h0 : isRing c0 = false) (h1 : isRing c1 = false)
    (h2 : isRing r0 = true) (h3 : isRing r1 = true) (h4 : isRing r2 = true) :
    rings [c0, c1, r0, r1, r2] = [r0, r1, r2] := by
  simp [rings, List.filter, h0, h1, h2, h3, h4]

end ObjectLemmas

section AnimateLemmas

variable {K : Type} [LinearOrderedField K]

theorem animateRing_of_isRing (o : Object3D K) (index : Nat) (h : isRing o = true) :
    animateRing o index =
      o.setRotation ⟨o.rotation.x + 0.01 * ((index : K) + 1),
        o.rotation.y + 0.01 * ((index : K) + 1), o.rotation.z⟩ := by
  unfold isRing at h
  unfold animateRing
  cases hg : o.geometry with
  | none => rw [hg] at h; exact absurd h (by simp)
  | some g =>
    rw [hg] at h
    simp only [decide_eq_true_eq] at h
    simp only [h, if_true]

theorem animateRing_of_not_isRing (o : Object3D K) (index : Nat) (h : isRing o = false) :
    animateRing o index = o := by
  unfold isRing at h
  unfold animateRing
  cases hg : o.geometry with
  | none => rfl
  | some g =>
    rw [hg] at h
    simp only [decide_eq_false_iff_not] at h
    simp only [h, if_false]

/-- One frame on a state whose particle set is well formed and whose logo group
has the shape built by the mount effect: the frame succeeds, the scroll
progress is untouched, the particle set stays well formed, the group rotation
is eased, and the children are updated in place (the three rings, at child
indices 2, 3 and 4, turn by `0.01 * (index + 1)`). -/
theorem animate_spec (sqrt sin : K → K) (pi time : K) (s : AnimState K)
    (c0 c1 r0 r1 r2 : Object3D K) (hwf : WellFormed s.particles)
    (hch : s.logoGroup.children = [c0, c1, r0, r1, r2])
    (h0 : isRing c0 = false) (h1 : isRing c1 = false)
    (h2 : isRing r0 = true) (h3 : isRing r1 = true) (h4 : isRing r2 = true) :
    ∃ s', animate sqrt sin pi time s = some s' ∧
      s'.scrollProgress = s.scrollProgress ∧
      WellFormed s'.particles ∧
      animateParticles sqrt s.particles = some s'.particles ∧
      s'.logoGroup.rotation = (easeRotation pi s.scrollProgress s.logoGroup).rotation ∧
      s'.logoGroup.children =
        [c0.setRotation ⟨c0.rotation.x, c0.rotation.y, sin (time * 0.3) * 0.1⟩,
          c1.setRotation ⟨c1.rotation.x, c1.rotation.y + 0.001, c1.rotation.z⟩,
          r0.setRotation ⟨r0.rotation.x + 0.01 * (((2 : Nat) : K) + 1),
            r0.rotation.y + 0.01 * (((2 : Nat) : K) + 1), r0.rotation.z⟩,
          r1.setRotation ⟨r1.rotation.x + 0.01 * (((3 : Nat) : K) + 1),
            r1.rotation.y + 0.01 * (((3 : Nat) : K) + 1), r1.rotation.z⟩,
          r2.setRotation ⟨r2.rotation.x + 0.01 * (((4 : Nat) : K) + 1),
            r2.rotation.y + 0.01 * (((4 : Nat) : K) + 1), r2.rotation.z⟩] := by
  obtain ⟨p', hp', hlenp, hlenv, _⟩ := animateParticles_spec sqrt s.particles hwf
  have hwf' : WellFormed p' := by
    unfold WellFormed at hwf ⊢
    rw [hlenp, hlenv]
    exact hwf
  unfold animate
  simp only [hp']
  refine ⟨_, rfl, rfl, hwf', rfl, ?_, ?_⟩
  · simp only [animateRings, Object3D.rotation_setChildren, Object3D.rotation_setPosition]
  · simp only [animateRings, easeRotation, Object3D.children_setChildren,
      Object3D.children_setPosition, Object3D.children_setRotation, hch]
    have hfirst : ∀ (f : Object3D K → Object3D K) (a b c d e : Object3D K),
        List.modify f 0 [a, b, c, d, e] = [f a, b, c, d, e] := fun _ _ _ _ _ _ => rfl
    have hsecond : ∀ (f : Object3D K → Object3D K) (a b c d e : Object3D K),
        List.modify f 1 [a, b, c, d, e] = [a, f b, c, d, e] := fun _ _ _ _ _ _ => rfl
    have heach : ∀ (a b c d e : Object3D K),
        forEachFrom animateRing 0 [a, b, c, d, e] =
          [animateRing a 0, animateRing b 1, animateRing c 2, animateRing d 3,
            animateRing e 4] := fun _ _ _ _ _ => rfl
    rw [hfirst, heach, hsecond,
      animateRing_of_not_isRing _ 0 (by rw [isRing_setRotation]; exact h0),
      animateRing_of_not_isRing _ 1 h1, animateRing_of_isRing _ 2 h2,
      animateRing_of_isRing _ 3 h3, animateRing_of_isRing _ 4 h4]

/-- The state left by the mount effect: the logo group has the logo mesh and the
particle cloud as its first two children, then the three rings, ring `k`
turned by `(π / 4) * k` about x and y, and the particle set is well formed. -/
theorem mountEffect_initialState (sin cos : K → K) (pi : K) (random : Nat → K)
    (c : Container K) :
    ∃ m c0 c1 r0 r1 r2, mountEffect sin cos pi random (some c) = some m ∧
      (initialState m).logoGroup.children = [c0, c1, r0, r1, r2] ∧
      isRing c0 = false ∧ isRing c1 = false ∧
      isRing r0 = true ∧ isRing r1 = true ∧ isRing r2 = true ∧
      r0.rotation = ⟨(pi / 4) * ((0 : Nat) : K), (pi / 4) * ((0 : Nat) : K), 0⟩ ∧
      r1.rotation = ⟨(pi / 4) * ((1 : Nat) : K), (pi / 4) * ((1 : Nat) : K), 0⟩ ∧
      r2.rotation = ⟨(pi / 4) * ((2 : Nat) : K), (pi / 4) * ((2 : Nat) : K), 0⟩ ∧
      WellFormed (initialState m).particles := by
  refine ⟨_, _, _, _, _, _, rfl, rfl, rfl, rfl, rfl, rfl, rfl, rfl, rfl, rfl, ?_⟩
  have h := initParticles_spec sin cos pi random
  show WellFormed (initParticles sin cos pi random)
  unfold WellFormed
  rw [h.1, h.2.1]

/-- Any run of events from a state with a well-formed particle set and a logo
group of the mounted shape succeeds and ends in such a state; the particle set
at the end is the one the particle update produces in as many frames as the
run has. -/
theorem run_spec (sqrt sin : K → K) (pi : K) (events : List (Event K)) :
    ∀ s : AnimState K, WellFormed s.particles → LogoGroupShape s.logoGroup →
      ∃ s', run sqrt sin pi events s = some s' ∧ WellFormed s'.particles ∧
        LogoGroupShape s'.logoGroup ∧
        animateParticlesN sqrt (countFrames events) s.particles = some s'.particles := by
  induction events with
  | nil =>
    intro s hwf hshape
    exact ⟨s, rfl, hwf, hshape, rfl⟩
  | cons e events ih =>
    intro s hwf hshape
    cases e with
    | frame time =>
      obtain ⟨c0, c1, r0, r1, r2, hch, h0, h1, h2, h3, h4⟩ := hshape
      obtain ⟨s1, hs1, _, hwf1, hpart1, _, hch1⟩ :=
        animate_spec sqrt sin pi time s c0 c1 r0 r1 r2 hwf hch h0 h1 h2 h3 h4
      have hshape1 : LogoGroupShape s1.logoGroup :=
        ⟨_, _, _, _, _, hch1, by rw [isRing_setRotation]; exact h0,
          by rw [isRing_setRotation]; exact h1, by rw [isRing_setRotation]; exact h2,
          by rw [isRing_setRotation]; exact h3, by rw [isRing_setRotation]; exact h4⟩
      obtain ⟨s', hs', hwf', hshape', hpart'⟩ := ih s1 hwf1 hshape1
      refine ⟨s', ?_, hwf', hshape', ?_⟩
      · simp only [run, step, hs1, Option.some_bind]
        exact hs'
      · simp only [countFrames, animateParticlesN, hpart1, Option.some_bind]
        exact hpart'
    | scroll readings =>
      obtain ⟨s', hs', hwf', hshape', hpart'⟩ :=
        ih { scrollProgress := handleScroll readings, logoGroup := s.logoGroup,
             particles := s.particles } hwf hshape
      refine ⟨s', ?_, hwf', hshape', ?_⟩
      · simp only [run, step, Option.some_bind]
        exact hs'
      · simp only [countFrames]
        exact hpart'

theorem iterate_easeRotation_congr (pi scrollProgress : K) (n : Nat) :
    ∀ g h : Object3D K, g.rotation = h.rotation →
      ((easeRotation pi scrollProgress)^[n] g).rotation =
        ((easeRotation pi scrollProgress)^[n] h).rotation := by
  induction n with
  | zero => intro g h hgh; exact hgh
  | succ n ih =>
    intro g h hgh
    rw [Function.iterate_succ_apply, Function.iterate_succ_apply]
    apply ih
    simp only [easeRotation, Object3D.rotation_setRotation, hgh]

/-- In a run made of frames only the scroll progress is constant and the
rotation of the logo group is the one the rotation easing produces in as many
steps. -/
theorem run_frames_rotation (sqrt sin : K → K) (pi : K) (times : List K) :
    ∀ s : AnimState K, WellFormed s.particles → LogoGroupShape s.logoGroup →
      ∃ s', run sqrt sin pi (times.map Event.frame) s = some s' ∧
        s'.scrollProgress = s.scrollProgress ∧
        s'.logoGroup.rotation =
          ((easeRotation pi s.scrollProgress)^[times.length] s.logoGroup).rotation := by
  induction times with
  | nil =>
    intro s _ _
    exact ⟨s, rfl, rfl, rfl⟩
  | cons time times ih =>
    intro s hwf hshape
    obtain ⟨c0, c1, r0, r1, r2, hch, h0, h1, h2, h3, h4⟩ := hshape
    obtain ⟨s1, hs1, hprog1, hwf1, _, hrot1, hch1⟩ :=
      animate_spec sqrt sin pi time s c0 c1 r0 r1 r2 hwf hch h0 h1 h2 h3 h4
    have hshape1 : LogoGroupShape s1.logoGroup :=
      ⟨_, _, _, _, _, hch1, by rw [isRing_setRotation]; exact h0,
        by rw [isRing_setRotation]; exact h1, by rw [isRing_setRotation]; exact h2,
        by rw [isRing_setRotation]; exact h3, by rw [isRing_setRotation]; exact h4⟩
    obtain ⟨s', hs', hprog', hrot'⟩ := ih s1 hwf1 hshape1
    refine ⟨s', ?_, by rw [hprog', hprog1], ?_⟩
    · simp only [List.map_cons, run, step, hs1, Option.some_bind]
      exact hs'
    · rw [hrot', hprog1, List.length_cons, Function.iterate_succ_apply]
      exact iterate_easeRotation_congr pi s.scrollProgress times.length _ _ hrot1

end AnimateLemmas

section AnimateClaims

variable {K : Type} [LinearOrderedField K]

theorem easeRotation_rotation (pi scrollProgress : K) (g : Object3D K) :
    (easeRotation pi scrollProgress g).rotation =
      ⟨g.rotation.x + (scrollProgress * pi * 2 - g.rotation.x) * 0.05,
        g.rotation.y + (scrollProgress * pi * 6 - g.rotation.y) * 0.05, g.rotation.z⟩ := by
  simp only [easeRotation, Object3D.rotation_setRotation]

/-- Each frame multiplies both rotation gaps by `19/20`. -/
theorem easeRotation_gap (pi scrollProgress : K) (g : Object3D K) :
    (easeRotation pi scrollProgress g).rotation.y - scrollProgress * pi * 6 =
        19 / 20 * (g.rotation.y - scrollProgress * pi * 6) ∧
      (easeRotation pi scrollProgress g).rotation.x - scrollProgress * pi * 2 =
        19 / 20 * (g.rotation.x - scrollProgress * pi * 2) := by
  rw [easeRotation_rotation]
  constructor
  · norm_num
    ring
  · norm_num
    ring

theorem iterate_easeRotation_gap (pi scrollProgress : K) (g : Object3D K) (n : Nat) :
    ((easeRotation pi scrollProgress)^[n] g).rotation.y - scrollProgress * pi * 6 =
        (19 / 20) ^ n * (g.rotation.y - scrollProgress * pi * 6) ∧
      ((easeRotation pi scrollProgress)^[n] g).rotation.x - scrollProgress * pi * 2 =
        (19 / 20) ^ n * (g.rotation.x - scrollProgress * pi * 2) := by
  induction n with
  | zero => simp
  | succ n ih =>
    rw [Function.iterate_succ_apply']
    obtain ⟨hy, hx⟩ := easeRotation_gap pi scrollProgress ((easeRotation pi scrollProgress)^[n] g)
    rw [hy, hx, ih.1, ih.2]
    constructor <;> ring

/-- The gap `(19/20) ^ n * d` keeps the sign of `d`, does not grow in absolute
value and tends to 0. -/
theorem geometric_gap (d : ℝ) :
    (∀ n : Nat, SignType.sign ((19 / 20 : ℝ) ^ n * d) = SignType.sign d) ∧
      (∀ n : Nat, |(19 / 20 : ℝ) ^ (n + 1) * d| ≤ |(19 / 20 : ℝ) ^ n * d|) ∧
      Filter.Tendsto (fun n : Nat => (19 / 20 : ℝ) ^ n * d) Filter.atTop (nhds 0) := by
  refine ⟨?_, ?_, ?_⟩
  · intro n
    have hpos : (0 : ℝ) < (19 / 20) ^ n := by positivity
    rw [sign_mul, sign_pos hpos, one_mul]
  · intro n
    have hpos : (0 : ℝ) ≤ (19 / 20) ^ n := by positivity
    rw [pow_succ, mul_assoc, abs_mul, abs_mul, abs_mul, abs_of_nonneg hpos]
    have h1 : |(19 / 20 : ℝ)| * |d| ≤ |d| := by
      rw [abs_of_nonneg (by norm_num : (0 : ℝ) ≤ 19 / 20)]
      nlinarith [abs_nonneg d]
    exact mul_le_mul_of_nonneg_left h1 hpos
  · have h := tendsto_pow_atTop_nhds_zero_of_lt_one (by norm_num : (0 : ℝ) ≤ 19 / 20)
      (by norm_num : (19 / 20 : ℝ) < 1)
    have h2 := h.mul_const d
    rw [zero_mul] at h2
    exact h2

/-- C5: with the scroll progress held constant, so that the target rotations
`T_y = scrollProgress * π * 6` and `T_x = scrollProgress * π * 2` are constant,
each frame of the rotation easing multiplies the gap `current - T` by exactly
`19/20` on both axes; after `n` frames the gap is `(19/20) ^ n` times the
initial gap, it keeps the sign of the initial gap, its absolute value does not
grow from one frame to the next, the gap tends to 0 and the rotation to the
target.
Arithmetic is exact (real numbers). -/
theorem easeRotation_converges (scrollProgress : ℝ) (g : Object3D ℝ) :
    ((easeRotation Real.pi scrollProgress g).rotation.y - scrollProgress * Real.pi * 6 =
        19 / 20 * (g.rotation.y - scrollProgress * Real.pi * 6) ∧
      (easeRotation Real.pi scrollProgress g).rotation.x - scrollProgress * Real.pi * 2 =
        19 / 20 * (g.rotation.x - scrollProgress * Real.pi * 2)) ∧
    (∀ n : Nat,
      ((easeRotation Real.pi scrollProgress)^[n] g).rotation.y - scrollProgress * Real.pi * 6 =
          (19 / 20) ^ n * (g.rotation.y - scrollProgress * Real.pi * 6) ∧
        ((easeRotation Real.pi scrollProgress)^[n] g).rotation.x - scrollProgress * Real.pi * 2 =
          (19 / 20) ^ n * (g.rotation.x - scrollProgress * Real.pi * 2)) ∧
    (∀ n : Nat,
      SignType.sign (((easeRotation Real.pi scrollProgress)^[n] g).rotation.y -
          scrollProgress * Real.pi * 6) =
          SignType.sign (g.rotation.y - scrollProgress * Real.pi * 6) ∧
        SignType.sign (((easeRotation Real.pi scrollProgress)^[n] g).rotation.x -
          scrollProgress * Real.pi * 2) =
          SignType.sign (g.rotation.x - scrollProgress * Real.pi * 2)) ∧
    (∀ n : Nat,
      |((easeRotation Real.pi scrollProgress)^[n + 1] g).rotation.y -
          scrollProgress * Real.pi * 6| ≤
          |((easeRotation Real.pi scrollProgress)^[n] g).rotation.y -
            scrollProgress * Real.pi * 6| ∧
        |((easeRotation Real.pi scrollProgress)^[n + 1] g).rotation.x -
          scrollProgress * Real.pi * 2| ≤
          |((easeRotation Real.pi scrollProgress)^[n] g).rotation.x -
            scrollProgress * Real.pi * 2|) ∧
    Filter.Tendsto (fun n : Nat => ((easeRotation Real.pi scrollProgress)^[n] g).rotation.y -
      scrollProgress * Real.pi * 6) Filter.atTop (nhds 0) ∧
    Filter.Tendsto (fun n : Nat => ((easeRotation Real.pi scrollProgress)^[n] g).rotation.x -
      scrollProgress * Real.pi * 2) Filter.atTop (nhds 0) ∧
    Filter.Tendsto (fun n : Nat => ((easeRotation Real.pi scrollProgress)^[n] g).rotation.y)
      Filter.atTop (nhds (scrollProgress * Real.pi * 6)) ∧
    Filter.Tendsto (fun n : Nat => ((easeRotation Real.pi scrollProgress)^[n] g).rotation.x)
      Filter.atTop (nhds (scrollProgress * Real.pi * 2)) := by
  have hgap := iterate_easeRotation_gap Real.pi scrollProgress g
  obtain ⟨hsy, hmy, hty⟩ := geometric_gap (g.rotation.y - scrollProgress * Real.pi * 6)
  obtain ⟨hsx, hmx, htx⟩ := geometric_gap (g.rotation.x - scrollProgress * Real.pi * 2)
  refine ⟨easeRotation_gap Real.pi scrollProgress g, hgap, ?_, ?_, ?_, ?_, ?_, ?_⟩
  · intro n
    rw [(hgap n).1, (hgap n).2]
    exact ⟨hsy n, hsx n⟩
  · intro n
    rw [(hgap n).1, (hgap n).2, (hgap (n + 1)).1, (hgap (n + 1)).2]
    exact ⟨hmy n, hmx n⟩
  · exact hty.congr (fun n => ((hgap n).1).symm)
  · exact htx.congr (fun n => ((hgap n).2).symm)
  · have h := hty.add_const (scrollProgress * Real.pi * 6)
    rw [zero_add] at h
    refine h.congr ?_
    intro n
    rw [← (hgap n).1]
    ring
  · have h := htx.add_const (scrollProgress * Real.pi * 2)
    rw [zero_add] at h
    refine h.congr ?_
    intro n
    rw [← (hgap n).2]
    ring

/-- C6 as stated fails: in the first frame after a mount (real arithmetic, all
random draws `1/2`, container 800 by 600) the rotations about x of the three
rings go from `0`, `π/4`, `π/2` to `0 + 3/100`, `π/4 + 4/100`, `π/2 + 5/100`:
the first ring turns by `0.03`, not by `0.01`. -/
theorem animate_ring_increment_counterexample :
    (mountEffect Real.sin Real.cos Real.pi (fun _ => 1 / 2)
        (some (⟨800, 600⟩ : Container ℝ))).bind
      (fun m => (animate Real.sqrt Real.sin Real.pi 0 (initialState m)).map
        (fun s' => ((rings (initialState m).logoGroup.children).map (fun r => r.rotation.x),
          (rings s'.logoGroup.children).map (fun r => r.rotation.x)))) =
      some ([0, Real.pi / 4, Real.pi / 2],
        [0 + 3 / 100, Real.pi / 4 + 4 / 100, Real.pi / 2 + 5 / 100]) := by
  obtain ⟨m, c0, c1, r0, r1, r2, hm, hch, h0, h1, h2, h3, h4, hr0, hr1, hr2, hwf⟩ :=
    mountEffect_initialState Real.sin Real.cos Real.pi (fun _ => 1 / 2)
      (⟨800, 600⟩ : Container ℝ)
  obtain ⟨s', hs', _, _, _, _, hch'⟩ :=
    animate_spec Real.sqrt Real.sin Real.pi 0 (initialState m) c0 c1 r0 r1 r2 hwf hch
      h0 h1 h2 h3 h4
  rw [hm]
  simp only [Option.some_bind, hs', Option.map_some', hch, hch']
  rw [rings_of_shape c0 c1 r0 r1 r2 h0 h1 h2 h3 h4,
    rings_of_shape _ _ _ _ _ (by rw [isRing_setRotation]; exact h0)
      (by rw [isRing_setRotation]; exact h1) (by rw [isRing_setRotation]; exact h2)
      (by rw [isRing_setRotation]; exact h3) (by rw [isRing_setRotation]; exact h4)]
  simp only [List.map_cons, List.map_nil, Object3D.rotation_setRotation, hr0, hr1, hr2]
  norm_num
  ring

/-- C6 (amended): in every frame of `animate` after a mount, whatever frames and
scroll events came before, the `k`-th ring
(`k = 0, 1, 2` in creation order) is the child of the logo group at index
`k + 2`, and its `rotation.x` and `rotation.y` are each incremented by
`0.01 * (k + 3)`, that is by 0.03, 0.04 and 0.05; `rotation.z` is unchanged. -/
theorem animate_ring_increment (sqrt sin cos : K → K) (pi : K) (random : Nat → K)
    (c : Container K) (events : List (Event K)) (time : K) :
    ∃ m s s' r0 r1 r2, mountEffect sin cos pi random (some c) = some m ∧
      run sqrt sin pi events (initialState m) = some s ∧
      animate sqrt sin pi time s = some s' ∧
      rings s.logoGroup.children = [r0, r1, r2] ∧
      s.logoGroup.children.drop 2 = [r0, r1, r2] ∧
      (rings s'.logoGroup.children).map Object3D.rotation =
        [⟨r0.rotation.x + 0.01 * 3, r0.rotation.y + 0.01 * 3, r0.rotation.z⟩,
          ⟨r1.rotation.x + 0.01 * 4, r1.rotation.y + 0.01 * 4, r1.rotation.z⟩,
          ⟨r2.rotation.x + 0.01 * 5, r2.rotation.y + 0.01 * 5, r2.rotation.z⟩] := by
  obtain ⟨m, c0, c1, r0, r1, r2, hm, hch, h0, h1, h2, h3, h4, _, _, _, hwf⟩ :=
    mountEffect_initialState sin cos pi random c
  obtain ⟨s, hs, hwfs, ⟨d0, d1, q0, q1, q2, hchs, g0, g1, g2, g3, g4⟩, _⟩ :=
    run_spec sqrt sin pi events (initialState m) hwf
      ⟨c0, c1, r0, r1, r2, hch, h0, h1, h2, h3, h4⟩
  obtain ⟨s', hs', _, _, _, _, hch'⟩ :=
    animate_spec sqrt sin pi time s d0 d1 q0 q1 q2 hwfs hchs g0 g1 g2 g3 g4
  refine ⟨m, s, s', q0, q1, q2, hm, hs, hs', ?_, ?_, ?_⟩
  · rw [hchs, rings_of_shape d0 d1 q0 q1 q2 g0 g1 g2 g3 g4]
  · rw [hchs]
    rfl
  · rw [hch', rings_of_shape _ _ _ _ _ (by rw [isRing_setRotation]; exact g0)
      (by rw [isRing_setRotation]; exact g1) (by rw [isRing_setRotation]; exact g2)
      (by rw [isRing_setRotation]; exact g3) (by rw [isRing_setRotation]; exact g4)]
    simp only [List.map_cons, List.map_nil, Object3D.rotation_setRotation]
    norm_num

end AnimateClaims

section SceneClaims

variable {K : Type} [LinearOrderedField K]

/-- C2 as stated fails: after a mount (real arithmetic, all random draws `1/2`,
container 800 by 600) the numbers of `dispose()` calls the cleanup makes on the
allocated objects, in allocation order (logo geometry and material, wireframe
geometry and material, particle geometry and material, ring geometry, ring
material, the three clones), are 1, 1, 1, 1, 1, 1, 3, 0, 1, 1, 1: the shared
ring geometry is disposed three times and the original ring material never. -/
theorem cleanup_dispose_once_counterexample :
    (mountEffect Real.sin Real.cos Real.pi (fun _ => 1 / 2)
        (some (⟨800, 600⟩ : Container ℝ))).map
      (fun m => (m.allocated, m.allocated.map (fun r => (cleanup m).count r))) =
      some ([.geometry, .material, .wireframeGeometry, .wireframeMaterial,
          .particleGeometry, .particleMaterial, .ringGeometry, .ringMaterial,
          .ringMaterialClone 0, .ringMaterialClone 1, .ringMaterialClone 2],
        [1, 1, 1, 1, 1, 1, 3, 0, 1, 1, 1]) := by
  rfl

/-- C2 (amended): the mount effect succeeds on every container, and the cleanup
calls `dispose()` once per scene node on the geometry and on the material of
that node: exactly once on the logo geometry and material, the wireframe
geometry and material, the particle geometry and material and each of the
three ring material clones, and three times (once per ring) on the shared ring
geometry. -/
theorem cleanup_dispose_per_node (sin cos : K → K) (pi : K) (random : Nat → K)
    (c : Container K) :
    ∃ m, mountEffect sin cos pi random (some c) = some m ∧
      ([Resource.geometry, .material, .wireframeGeometry, .wireframeMaterial,
          .particleGeometry, .particleMaterial, .ringMaterialClone 0,
          .ringMaterialClone 1, .ringMaterialClone 2].map
        (fun r => (cleanup m).count r) = [1, 1, 1, 1, 1, 1, 1, 1, 1]) ∧
      (cleanup m).count Resource.ringGeometry = 3 := by
  obtain ⟨m, hm, hlog⟩ : ∃ m, mountEffect sin cos pi random (some c) = some m ∧
      cleanup m = [.geometry, .material, .wireframeGeometry, .wireframeMaterial,
        .particleGeometry, .particleMaterial, .ringGeometry, .ringMaterialClone 0,
        .ringGeometry, .ringMaterialClone 1, .ringGeometry, .ringMaterialClone 2] :=
    ⟨_, rfl, rfl⟩
  refine ⟨m, hm, ?_, ?_⟩
  · rw [hlog]
    decide
  · rw [hlog]
    decide

/-- C7 as stated fails: the scene graph produced by the mount effect (real
arithmetic, all random draws `1/2`, container 800 by 600) contains no camera
node, the camera is never added to the scene. -/
theorem mountEffect_camera_counterexample :
    (mountEffect Real.sin Real.cos Real.pi (fun _ => 1 / 2)
        (some (⟨800, 600⟩ : Container ℝ))).map
      (fun m => m.scene.countType ObjectType.PerspectiveCamera) = some 0 := by
  rfl

set_option maxHeartbeats 2000000 in
/-- C7 (amended): the mount effect creates exactly one perspective camera (fov
60, aspect width / height, near 0.1, far 1000, position z = 8), kept outside
the scene graph.  The scene graph has the scene as root with four children: the
single logo group and three lights (ambient, directional, point).  The logo
group has five children: the single logo mesh (extruded geometry, one
wireframe child of class `LineSegments`), the single particle cloud (whose
position buffer holds `3 * 100` numbers, with 100 velocities) and three torus
ring meshes.  There are no other nodes. -/
theorem mountEffect_scene_graph (sin cos : K → K) (pi : K) (random : Nat → K)
    (c : Container K) :
    ∃ m logoGroup logoMesh wireframe particles ring0 ring1 ring2
        ambientLight directionalLight pointLight,
      mountEffect sin cos pi random (some c) = some m ∧
      (m.camera.fov = 60 ∧ m.camera.aspect = c.clientWidth / c.clientHeight ∧
        m.camera.near = 0.1 ∧ m.camera.far = 1000 ∧
        m.camera.node.type = ObjectType.PerspectiveCamera ∧
        m.camera.node.position.z = 8 ∧
        m.scene.countType ObjectType.PerspectiveCamera = 0) ∧
      (m.scene.type = ObjectType.Scene ∧
        m.scene.children = [logoGroup, ambientLight, directionalLight, pointLight]) ∧
      (logoGroup.type = ObjectType.Group ∧
        logoGroup.children = [logoMesh, particles, ring0, ring1, ring2]) ∧
      (logoMesh.type = ObjectType.Mesh ∧
        logoMesh.geometry.map Geometry.type = some GeometryType.ExtrudeGeometry ∧
        logoMesh.children = [wireframe] ∧
        wireframe.type = ObjectType.LineSegments ∧
        wireframe.geometry.map Geometry.type = some GeometryType.EdgesGeometry ∧
        wireframe.children = []) ∧
      (particles.type = ObjectType.Points ∧
        particles.geometry.map Geometry.type = some GeometryType.BufferGeometry ∧
        particles.children = [] ∧
        m.particles.positions.length = 3 * 100 ∧ m.particles.velocities.length = 100) ∧
      ([ring0, ring1, ring2].map Object3D.type =
          [ObjectType.Mesh, ObjectType.Mesh, ObjectType.Mesh] ∧
        [ring0, ring1, ring2].map isRing = [true, true, true] ∧
        [ring0, ring1, ring2].map Object3D.children = [[], [], []]) ∧
      ([ambientLight, directionalLight, pointLight].map Object3D.type =
          [ObjectType.AmbientLight, ObjectType.DirectionalLight, ObjectType.PointLight] ∧
        [ambientLight, directionalLight, pointLight].map Object3D.children = [[], [], []]) ∧
      (m.scene.nodes.length = 11 ∧
        m.scene.countType ObjectType.Group = 1 ∧
        m.scene.countGeometry GeometryType.ExtrudeGeometry = 1 ∧
        m.scene.countType ObjectType.LineSegments = 1 ∧
        m.scene.countType ObjectType.Points = 1 ∧
        m.scene.countGeometry GeometryType.TorusGeometry = 3 ∧
        m.scene.countType ObjectType.Mesh = 4 ∧
        m.scene.countType ObjectType.AmbientLight = 1 ∧
        m.scene.countType ObjectType.DirectionalLight = 1 ∧
        m.scene.countType ObjectType.PointLight = 1) := by
  have hp := initParticles_spec sin cos pi random
  exact ⟨_, _, _, _, _, _, _, _, _, _, _, rfl, ⟨rfl, rfl, rfl, rfl, rfl, rfl, rfl⟩,
    ⟨rfl, rfl⟩, ⟨rfl, rfl⟩, ⟨rfl, rfl, rfl, rfl, rfl, rfl⟩, ⟨rfl, rfl, rfl, hp.1, hp.2.1⟩,
    ⟨rfl, rfl, rfl⟩, ⟨rfl, rfl⟩, ⟨rfl, rfl, rfl, rfl, rfl, rfl, rfl, rfl, rfl, rfl⟩⟩

end SceneClaims

end Logo3D
